import Mathlib

/-!
# A1349 heterogeneous EEVDF scheduler — shallow embedding

This file embeds the scheduler core of the A1349 repository in Lean 4 and
proves (or refutes) the frozen specification claims about it.

Embedded sources:
* the heterogeneous BPF scheduler (`eevdf_*` handlers, the weight cache,
  the capacity helpers and the signed/saturating virtual-time arithmetic),
  namespace `A1349.Het`;
* the classical EEVDF BPF scheduler used as the reference implementation,
  namespace `A1349.Classic`;
* the userspace agent's capacity-refresh pass, namespace `A1349.Agent`.

Machine integers are modelled as `Nat` (for `u64`/`u32` values) and `Int`
(for `s64` values), with explicit `% 2^64` reductions exactly where the C
code can wrap, and explicit two's-complement reinterpretation (`toS64`)
where the code casts `u64` to `s64`.  State fields carry the convention
that they hold in-range values (`< 2^64` for `u64` fields, `< 2^32` for
`u32` fields); theorems that need this state it as hypotheses.
-/

namespace A1349

/-- `2^64`, the modulus of `u64` arithmetic. -/
def U64M : Nat := 18446744073709551616

/-- `2^63`, the two's-complement sign boundary of `s64`. -/
def S64H : Nat := 9223372036854775808

/-- `u64` addition (wraps modulo `2^64`). -/
def u64add (a b : Nat) : Nat := (a + b) % U64M

/-- `u64` subtraction (wraps modulo `2^64`); inputs are assumed `< 2^64`. -/
def u64sub (a b : Nat) : Nat := (a + U64M - b) % U64M

/-- `u64` multiplication (wraps modulo `2^64`). -/
def u64mul (a b : Nat) : Nat := (a * b) % U64M

/-- Reinterpret a `u64` bit pattern as a two's-complement `s64` value. -/
def toS64 (a : Nat) : Int :=
  if a % U64M < S64H then ((a % U64M : Nat) : Int)
  else ((a % U64M : Nat) : Int) - (U64M : Int)

/-- Wrap a mathematical integer into the `s64` range `[-2^63, 2^63)`,
as two's-complement `s64` arithmetic does on overflow. -/
def s64wrap (x : Int) : Int := (x + S64H) % (U64M : Int) - S64H

/-- The `s64` difference `(s64)a - (s64)b` of two `u64` values, as computed
by the C code (two's complement, wrapping). -/
def s64sub (a b : Nat) : Int := toS64 (u64sub a b)

/-- `time_before(a, b)` from the BPF headers: `(s64)(a - b) < 0`,
the wrapping virtual-clock comparison. -/
def time_before (a b : Nat) : Bool := decide (toS64 (u64sub a b) < 0)

/-- `SCX_SLICE_DFL`: the runtime's default time slice, 20 ms in ns. -/
def SCX_SLICE_DFL : Nat := 20000000

/-- `CAPACITY_SCALE` (Linux `SCHED_CAPACITY_SCALE`). -/
def CAPACITY_SCALE : Nat := 1024

/-- `SCALE`: fixed granularity factor of virtual-deadline arithmetic. -/
def SCALE : Nat := 100

namespace Het

/-! Embedding of the heterogeneous scheduler (`src/unnamed/part_001`). -/

/-- `EEVDF_DSQ_BIG`. -/
def EEVDF_DSQ_BIG : Nat := 1

/-- `EEVDF_DSQ_LITTLE`. -/
def EEVDF_DSQ_LITTLE : Nat := 2

/-- `BIG_CAP_PCT`. -/
def BIG_CAP_PCT : Nat := 90

/-- `LAG_BOOST_DIV`. -/
def LAG_BOOST_DIV : Nat := 4

/-- `DISPATCH_BATCH_MAX`. -/
def DISPATCH_BATCH_MAX : Nat := 8

/-- `INV_SHIFT`. -/
def INV_SHIFT : Nat := 20

/-- `struct eevdf_ctx`: the singleton global state `global_data[0]`. -/
structure EevdfCtx where
  vtime_now : Nat
  total_weight : Nat
  max_capacity : Nat
deriving Repr, DecidableEq

/-- `struct eevdf_task_ctx`: per-task storage (weight cache). -/
structure TaskCtx where
  weight_cached : Nat
  inv_weight : Nat
deriving Repr, DecidableEq

/-- The task fields the scheduler reads and writes through `p->scx`,
together with the task's per-task storage. -/
structure TaskState where
  weight : Nat
  slice : Nat
  dsq_vtime : Nat
  tctx : TaskCtx
deriving Repr, DecidableEq

/-- `get_cpu_cap`: capacity-table lookup defaulting to `CAPACITY_SCALE`
when the entry is missing or zero. -/
def get_cpu_cap (caps : Nat → Option Nat) (cpu : Nat) : Nat :=
  match caps cpu with
  | some c => if c ≠ 0 then c else CAPACITY_SCALE
  | none => CAPACITY_SCALE

/-- `class_dsq_id`: a capacity is BIG when `cap·100 ≥ max_cap·90`
(with a zero `max_cap` defaulted to `CAPACITY_SCALE`). -/
def class_dsq_id (cap max_cap : Nat) : Nat :=
  let max_cap := if max_cap = 0 then CAPACITY_SCALE else max_cap
  if cap * 100 ≥ max_cap * BIG_CAP_PCT then EEVDF_DSQ_BIG else EEVDF_DSQ_LITTLE

/-- `desired_dsq_for_task`: lag-driven class choice.  `ve` is the task's
`p->scx.dsq_vtime` at the call, `pcap` is `get_cpu_cap(scx_bpf_task_cpu(p))`.
The `gdata == NULL` early return is not modelled (the global map lookup of
an in-bounds array key always succeeds). -/
def desired_dsq_for_task (g : EevdfCtx) (ve : Nat) (pcap : Nat) (max_cap : Nat) :
    Nat :=
  let q_max := max_cap * SCX_SLICE_DFL / CAPACITY_SCALE
  let lag_boost := q_max / LAG_BOOST_DIV + 1
  let lag := s64sub g.vtime_now ve
  if lag > toS64 lag_boost then EEVDF_DSQ_BIG
  else if lag < s64wrap (-(toS64 lag_boost)) then EEVDF_DSQ_LITTLE
  else class_dsq_id pcap max_cap

/-- `refresh_weight_cache`: recompute the cached reciprocal when the
cached weight differs or the cached inverse is zero. -/
def refresh_weight_cache (t : TaskCtx) (weight : Nat) : TaskCtx :=
  let weight := if weight = 0 then 1 else weight
  if t.weight_cached = weight ∧ t.inv_weight ≠ 0 then t
  else
    let inv := (2 ^ INV_SHIFT + weight / 2) / weight
    let inv := if inv = 0 then 1 else inv
    ⟨weight, inv % 2 ^ 32⟩

/-- `div_by_weight_cached`: divide `val` by `weight` via the cached
reciprocal when `val` fits in 32 bits, else exactly.  Returns the quotient
together with the (possibly refreshed) task storage. -/
def div_by_weight_cached (val : Nat) (weight : Nat) (t : TaskCtx) :
    Nat × TaskCtx :=
  let weight := if weight = 0 then 1 else weight
  let t := refresh_weight_cache t weight
  if t.inv_weight ≠ 0 ∧ val ≤ 4294967295 then
    ((val % 2 ^ 32) * t.inv_weight / 2 ^ INV_SHIFT, t)
  else (val / weight, t)

/-- `abs_s64_to_u64`: absolute value of an `s64`, as a `u64`. -/
def abs_s64_to_u64 (v : Int) : Nat :=
  if 0 ≤ v then v.toNat else ((-(v + 1)) + 1).toNat

/-- `div_signed_u64`: `sign(num)·(|num|/den)`, 0 when `den = 0`;
the result is re-wrapped into `s64` as the C casts do. -/
def div_signed_u64 (num : Int) (den : Nat) : Int :=
  if den = 0 then 0
  else
    let abs_q := abs_s64_to_u64 num / den
    if num < 0 then s64wrap (-(toS64 abs_q)) else toS64 abs_q

/-- `add_signed_vtime`: saturating signed addition onto `vtime_now`
(saturates at `2^64 - 1` above and at `0` below). -/
def add_signed_vtime (v : Nat) (delta : Int) : Nat :=
  if 0 ≤ delta then
    let add := delta.toNat
    if v > (U64M - 1) - add then U64M - 1 else v + add
  else
    let sub := abs_s64_to_u64 delta
    if v > sub then v - sub else 0

/-- Delivered service in virtual-time units, as computed in `eevdf_stopping`:
`consumed * cap * SCALE / CAPACITY_SCALE` with `u64` wrapping products,
where `consumed = SCX_SLICE_DFL - p->scx.slice` (wrapping). -/
def svc_vtime (p : TaskState) (cap : Nat) : Nat :=
  u64mul (u64mul (u64sub SCX_SLICE_DFL p.slice) cap) SCALE / CAPACITY_SCALE

/-- Result of `eevdf_enqueue`: the (unmodified) global state, the updated
task, the queue chosen for insertion and the virtual-deadline sort key. -/
structure EnqueueResult where
  gdata : EevdfCtx
  task : TaskState
  dsq_id : Nat
  vd : Nat
deriving Repr, DecidableEq

/-- `eevdf_enqueue`: clamp the task's virtual time to at most one
max-quantum of lag, compute the virtual deadline, and pick the queue.
`pcap` is `get_cpu_cap(scx_bpf_task_cpu(p))`. -/
def eevdf_enqueue (g : EevdfCtx) (p : TaskState) (pcap : Nat) : EnqueueResult :=
  let v_now := g.vtime_now
  let ve := p.dsq_vtime
  let max_cap := if g.max_capacity = 0 then CAPACITY_SCALE else g.max_capacity
  let q_max := max_cap * SCX_SLICE_DFL / CAPACITY_SCALE
  let min_ve := if v_now > q_max then v_now - q_max else 0
  let ve := if time_before ve min_ve then min_ve else ve
  let weight := if p.weight = 0 then 1 else p.weight
  let tc := refresh_weight_cache p.tctx weight
  let dv := div_by_weight_cached (q_max * SCALE) weight tc
  let vd := u64add ve dv.1
  let p := { p with dsq_vtime := ve, tctx := dv.2 }
  let dsq_id := desired_dsq_for_task g p.dsq_vtime pcap max_cap
  ⟨g, p, dsq_id, vd⟩

/-- `eevdf_running`: bump `vtime_now` to the task's virtual time when the
wrapping clock comparison says it lags. -/
def eevdf_running (g : EevdfCtx) (p : TaskState) : EevdfCtx :=
  if time_before g.vtime_now p.dsq_vtime then { g with vtime_now := p.dsq_vtime }
  else g

/-- `eevdf_stopping`: advance the task's virtual time by its weighted share
of the delivered service, and advance `vtime_now` by `svc / total_weight`
when the active weight sum is non-zero.  `cap` is the current CPU's
capacity (`get_cpu_cap(bpf_get_smp_processor_id())`). -/
def eevdf_stopping (g : EevdfCtx) (p : TaskState) (cap : Nat) :
    EevdfCtx × TaskState :=
  let weight := if p.weight = 0 then 1 else p.weight
  let svc := svc_vtime p cap
  let dv := div_by_weight_cached svc weight p.tctx
  let p := { p with dsq_vtime := u64add p.dsq_vtime dv.1, tctx := dv.2 }
  let g :=
    if g.total_weight ≠ 0 then
      { g with vtime_now := u64add g.vtime_now (svc / g.total_weight) }
    else g
  (g, p)

/-- `eevdf_set_weight`: update the active weight sum and reindex
`vtime_now` by the lag difference between the old and new sums. -/
def eevdf_set_weight (g : EevdfCtx) (p : TaskState) (new_weight : Nat) :
    EevdfCtx × TaskState :=
  let old_weight := if p.weight = 0 then 1 else p.weight
  let old_sum := g.total_weight
  let new_weight := if new_weight = 0 then 1 else new_weight
  let p := { p with tctx := refresh_weight_cache p.tctx new_weight }
  let tw := if g.total_weight ≥ old_weight then g.total_weight - old_weight
            else g.total_weight
  let tw := u64add tw new_weight
  let g := { g with total_weight := tw }
  if old_sum = 0 ∨ tw = 0 then (g, p)
  else
    let lag := s64sub g.vtime_now p.dsq_vtime
    let diff := s64wrap (div_signed_u64 lag old_sum - div_signed_u64 lag tw)
    ({ g with vtime_now := add_signed_vtime g.vtime_now diff }, p)

/-- `eevdf_enable`: initialize the virtual time of a fresh task to
`vtime_now`, fold the task's weight into the active sum, and apply the
bounded `V` correction `-lag/new_sum`. -/
def eevdf_enable (g : EevdfCtx) (p : TaskState) : EevdfCtx × TaskState :=
  let weight := if p.weight = 0 then 1 else p.weight
  let p := if p.dsq_vtime = 0 then { p with dsq_vtime := g.vtime_now } else p
  let lag := s64sub g.vtime_now p.dsq_vtime
  let new_sum := u64add g.total_weight weight
  let g :=
    if new_sum ≠ 0 then
      { g with vtime_now :=
          add_signed_vtime g.vtime_now (s64wrap (-(div_signed_u64 lag new_sum))) }
    else g
  ({ g with total_weight := new_sum }, p)

/-- `eevdf_disable`: remove the task's weight from the active sum
(saturating at 0), apply the bounded `V` correction `+lag/new_sum`, and
release the per-task storage. -/
def eevdf_disable (g : EevdfCtx) (p : TaskState) : EevdfCtx × TaskState :=
  let weight := if p.weight = 0 then 1 else p.weight
  let lag := s64sub g.vtime_now p.dsq_vtime
  let new_sum := if g.total_weight ≥ weight then g.total_weight - weight else 0
  let g := { g with total_weight := new_sum }
  let g :=
    if new_sum ≠ 0 then
      { g with vtime_now := add_signed_vtime g.vtime_now (div_signed_u64 lag new_sum) }
    else g
  (g, { p with tctx := ⟨0, 0⟩ })

/-- One `scx_bpf_dsq_move_to_local` on a vtime-ordered queue (whose head is
the minimum-`v_d` entry): pop the head into the CPU-local queue, reporting
success; fail on an empty queue. -/
def dsq_move_to_local {α : Type} (q loc : List α) : List α × List α × Bool :=
  match q with
  | [] => ([], loc, false)
  | t :: ts => (ts, loc ++ [t], true)

/-- The dispatch loop over `(preferred queue, other queue, local queue)`:
each iteration first tries the preferred queue, then the other, and stops
when both are empty.  Returns the queues and the number of loop-body
executions. -/
def dispatch_go {α : Type} :
    Nat → List α × List α × List α → (List α × List α × List α) × Nat
  | 0, st => (st, 0)
  | fuel + 1, (ql, qo, loc) =>
    match ql with
    | t :: ts =>
      let r := dispatch_go fuel (ts, qo, loc ++ [t])
      (r.1, r.2 + 1)
    | [] =>
      match qo with
      | t :: ts =>
        let r := dispatch_go fuel ([], ts, loc ++ [t])
        (r.1, r.2 + 1)
      | [] => (([], [], loc), 1)

/-- `eevdf_dispatch`: batch-move up to `min(max(slots,1), 8)` tasks into
the CPU's local queue, preferring the queue of the CPU's own class.
Returns the global state (untouched by the handler), the final
`(BIG, LITTLE, local)` queues, and the number of loop iterations. -/
def eevdf_dispatch {α : Type} (g : EevdfCtx) (caps : Nat → Option Nat)
    (cpu : Nat) (slots : Nat) (big little loc : List α) :
    EevdfCtx × (List α × List α × List α) × Nat :=
  let max_cap := if g.max_capacity = 0 then CAPACITY_SCALE else g.max_capacity
  let cap := get_cpu_cap caps cpu
  let local_dsq := class_dsq_id cap max_cap
  let slots := if slots = 0 then 1 else slots
  let slots := if slots > DISPATCH_BATCH_MAX then DISPATCH_BATCH_MAX else slots
  if local_dsq = EEVDF_DSQ_BIG then
    let r := dispatch_go slots (big, little, loc)
    (g, (r.1.1, r.1.2.1, r.1.2.2), r.2)
  else
    let r := dispatch_go slots (little, big, loc)
    (g, (r.1.2.1, r.1.1, r.1.2.2), r.2)

end Het

namespace Classic

/-! Embedding of the classical EEVDF scheduler (`src/unnamed/part_002`). -/

/-- `struct eevdf_ctx` of the classical scheduler. -/
structure EevdfCtx where
  vtime_now : Nat
  total_weight : Nat
deriving Repr, DecidableEq

/-- Task fields used by the classical scheduler. -/
structure TaskState where
  weight : Nat
  slice : Nat
  dsq_vtime : Nat
deriving Repr, DecidableEq

/-- `eevdf_enqueue` of the classical scheduler: clamp `dsq_vtime` to
`vtime_now - slice` (unsigned comparison, wrapping subtraction) and insert
into the single shared queue with key `ve + slice*SCALE/weight`.
Returns the updated task and the `v_d` sort key. -/
def eevdf_enqueue (g : EevdfCtx) (p : TaskState) : TaskState × Nat :=
  let slice := SCX_SLICE_DFL
  let v_now := g.vtime_now
  let ve := p.dsq_vtime
  let ve := if ve < u64sub v_now slice then u64sub v_now slice else ve
  let weight := if p.weight = 0 then 1 else p.weight
  let vd := u64add ve (slice * SCALE / weight)
  ({ p with dsq_vtime := ve }, vd)

end Classic

namespace Agent

/-! Embedding of the userspace agent's capacity-refresh pass
(`refresh_cpu_capacities` in the s3+ userspace program). -/

/-- The shared maps visible to the agent.  `latency_hist` and `stats`
stand for the remaining maps, to state the frame property. -/
structure AgentMaps where
  cpu_capacity : Nat → Nat
  gdata : Het.EevdfCtx
  latency_hist : Nat → Nat
  stats : Nat → Nat

/-- Pointwise map update. -/
def mapWrite (f : Nat → Nat) (k v : Nat) : Nat → Nat :=
  fun x => if x = k then v else f x

/-- One step of the per-CPU scan: read the sysfs capacity (defaulting to
1024 when the file is missing or unparseable), write it back if it differs
from the stored one, and track the running maximum. -/
def scan_step (sysfs : Nat → Option Nat) (acc : AgentMaps × Nat × Bool)
    (cpu : Nat) : AgentMaps × Nat × Bool :=
  let m := acc.1
  let max_cap := acc.2.1
  let changed := acc.2.2
  let cap := (sysfs cpu).getD 1024
  let mc :=
    if m.cpu_capacity cpu ≠ cap then
      ({ m with cpu_capacity := mapWrite m.cpu_capacity cpu cap }, true)
    else (m, changed)
  (mc.1, if cap > max_cap then cap else max_cap, mc.2)

/-- `refresh_cpu_capacities`: scan `ncpu` CPUs, then write the observed
maximum capacity into `global_data[0]` (only when it changed), writing
back the `vtime_now` and `total_weight` values that were read. -/
def refresh_cpu_capacities (ncpu : Nat) (sysfs : Nat → Option Nat)
    (m : AgentMaps) : AgentMaps × Bool :=
  let r := (List.range ncpu).foldl (scan_step sysfs) (m, 0, false)
  let m := r.1
  let max_cap := if r.2.1 = 0 then 1024 else r.2.1
  let ctx := m.gdata
  if ctx.max_capacity ≠ max_cap then
    ({ m with gdata := { ctx with max_capacity := max_cap } }, true)
  else (m, r.2.2)

end Agent

namespace Checked

/-! Division-instrumented re-statements of the heterogeneous scheduler.
Every `/` of the source is replaced by `checkedDiv`, which fails (returns
`none`) on a zero divisor; the control flow is otherwise identical, so a
handler variant returning `some` proves that no division it reaches has a
zero divisor. -/

open Het

/-- Division that fails on a zero divisor. -/
def checkedDiv (a b : Nat) : Option Nat :=
  if b = 0 then none else some (a / b)

/-- `refresh_weight_cache` with checked divisions. -/
def refresh_weight_cacheC (t : TaskCtx) (weight : Nat) : Option TaskCtx :=
  let weight := if weight = 0 then 1 else weight
  if t.weight_cached = weight ∧ t.inv_weight ≠ 0 then some t
  else do
    let h ← checkedDiv weight 2
    let inv ← checkedDiv (2 ^ INV_SHIFT + h) weight
    let inv := if inv = 0 then 1 else inv
    some ⟨weight, inv % 2 ^ 32⟩

/-- `div_by_weight_cached` with checked divisions. -/
def div_by_weight_cachedC (val weight : Nat) (t : TaskCtx) :
    Option (Nat × TaskCtx) := do
  let weight := if weight = 0 then 1 else weight
  let t ← refresh_weight_cacheC t weight
  if t.inv_weight ≠ 0 ∧ val ≤ 4294967295 then
    let q ← checkedDiv ((val % 2 ^ 32) * t.inv_weight) (2 ^ INV_SHIFT)
    some (q, t)
  else do
    let q ← checkedDiv val weight
    some (q, t)

/-- `div_signed_u64` with a checked division: the zero-denominator branch
returns 0 without dividing. -/
def div_signed_u64C (num : Int) (den : Nat) : Option Int :=
  if den = 0 then some 0
  else do
    let q ← checkedDiv (abs_s64_to_u64 num) den
    if num < 0 then some (s64wrap (-(toS64 q))) else some (toS64 q)

/-- `svc_vtime` with its division by `CAPACITY_SCALE` checked. -/
def svc_vtimeC (p : TaskState) (cap : Nat) : Option Nat :=
  checkedDiv (u64mul (u64mul (u64sub SCX_SLICE_DFL p.slice) cap) SCALE)
    CAPACITY_SCALE

/-- `desired_dsq_for_task` with checked divisions. -/
def desired_dsq_for_taskC (g : EevdfCtx) (ve pcap max_cap : Nat) :
    Option Nat := do
  let q_max ← checkedDiv (max_cap * SCX_SLICE_DFL) CAPACITY_SCALE
  let lb ← checkedDiv q_max LAG_BOOST_DIV
  let lag_boost := lb + 1
  let lag := s64sub g.vtime_now ve
  if lag > toS64 lag_boost then some EEVDF_DSQ_BIG
  else if lag < s64wrap (-(toS64 lag_boost)) then some EEVDF_DSQ_LITTLE
  else some (class_dsq_id pcap max_cap)

/-- `eevdf_enqueue` with checked divisions. -/
def eevdf_enqueueC (g : EevdfCtx) (p : TaskState) (pcap : Nat) :
    Option EnqueueResult := do
  let v_now := g.vtime_now
  let ve := p.dsq_vtime
  let max_cap := if g.max_capacity = 0 then CAPACITY_SCALE else g.max_capacity
  let q_max ← checkedDiv (max_cap * SCX_SLICE_DFL) CAPACITY_SCALE
  let min_ve := if v_now > q_max then v_now - q_max else 0
  let ve := if time_before ve min_ve then min_ve else ve
  let weight := if p.weight = 0 then 1 else p.weight
  let tc ← refresh_weight_cacheC p.tctx weight
  let dv ← div_by_weight_cachedC (q_max * SCALE) weight tc
  let vd := u64add ve dv.1
  let p := { p with dsq_vtime := ve, tctx := dv.2 }
  let dsq_id ← desired_dsq_for_taskC g p.dsq_vtime pcap max_cap
  some ⟨g, p, dsq_id, vd⟩

/-- `eevdf_stopping` with checked divisions; the `svc / total_weight`
division is only reached under the `total_weight ≠ 0` guard. -/
def eevdf_stoppingC (g : EevdfCtx) (p : TaskState) (cap : Nat) :
    Option (EevdfCtx × TaskState) := do
  let weight := if p.weight = 0 then 1 else p.weight
  let svc ← svc_vtimeC p cap
  let dv ← div_by_weight_cachedC svc weight p.tctx
  let p := { p with dsq_vtime := u64add p.dsq_vtime dv.1, tctx := dv.2 }
  if g.total_weight ≠ 0 then do
    let q ← checkedDiv svc g.total_weight
    some ({ g with vtime_now := u64add g.vtime_now q }, p)
  else some (g, p)

/-- `eevdf_set_weight` with checked divisions. -/
def eevdf_set_weightC (g : EevdfCtx) (p : TaskState) (new_weight : Nat) :
    Option (EevdfCtx × TaskState) := do
  let old_weight := if p.weight = 0 then 1 else p.weight
  let old_sum := g.total_weight
  let new_weight := if new_weight = 0 then 1 else new_weight
  let tc ← refresh_weight_cacheC p.tctx new_weight
  let p := { p with tctx := tc }
  let tw := if g.total_weight ≥ old_weight then g.total_weight - old_weight
            else g.total_weight
  let tw := u64add tw new_weight
  let g := { g with total_weight := tw }
  if old_sum = 0 ∨ tw = 0 then some (g, p)
  else do
    let lag := s64sub g.vtime_now p.dsq_vtime
    let a ← div_signed_u64C lag old_sum
    let b ← div_signed_u64C lag tw
    some ({ g with vtime_now := add_signed_vtime g.vtime_now (s64wrap (a - b)) }, p)

/-- `eevdf_enable` with checked divisions. -/
def eevdf_enableC (g : EevdfCtx) (p : TaskState) :
    Option (EevdfCtx × TaskState) := do
  let weight := if p.weight = 0 then 1 else p.weight
  let p := if p.dsq_vtime = 0 then { p with dsq_vtime := g.vtime_now } else p
  let lag := s64sub g.vtime_now p.dsq_vtime
  let new_sum := u64add g.total_weight weight
  if new_sum ≠ 0 then do
    let q ← div_signed_u64C lag new_sum
    let v := add_signed_vtime g.vtime_now (s64wrap (-q))
    some ({ g with vtime_now := v, total_weight := new_sum }, p)
  else some ({ g with total_weight := new_sum }, p)

/-- `eevdf_disable` with checked divisions. -/
def eevdf_disableC (g : EevdfCtx) (p : TaskState) :
    Option (EevdfCtx × TaskState) := do
  let weight := if p.weight = 0 then 1 else p.weight
  let lag := s64sub g.vtime_now p.dsq_vtime
  let new_sum := if g.total_weight ≥ weight then g.total_weight - weight else 0
  let g := { g with total_weight := new_sum }
  if new_sum ≠ 0 then do
    let q ← div_signed_u64C lag new_sum
    some ({ g with vtime_now := add_signed_vtime g.vtime_now q },
          { p with tctx := ⟨0, 0⟩ })
  else some (g, { p with tctx := ⟨0, 0⟩ })

end Checked

namespace Het

/-- `Q_max = ρ_max·SLICE/CAP_SCALE` as `eevdf_enqueue` computes it from the
global state (a zero `max_capacity` defaults to `CAPACITY_SCALE`). -/
def q_max_of (g : EevdfCtx) : Nat :=
  (if g.max_capacity = 0 then CAPACITY_SCALE else g.max_capacity) *
    SCX_SLICE_DFL / CAPACITY_SCALE

end Het

end A1349

open A1349

/-- Evaluation of `toS64` below the sign boundary. -/
theorem toS64_of_lt {a : Nat} (h : a < S64H) : toS64 a = (a : Int) := by
  unfold toS64 U64M at *
  unfold S64H at *
  have : a % 18446744073709551616 = a := by omega
  rw [this]
  simp only [if_pos (by omega : a < 9223372036854775808)]

/-- Evaluation of `toS64` at or above the sign boundary. -/
theorem toS64_of_ge {a : Nat} (h1 : S64H ≤ a) (h2 : a < U64M) :
    toS64 a = (a : Int) - (U64M : Int) := by
  unfold toS64 U64M at *
  unfold S64H at *
  have : a % 18446744073709551616 = a := by omega
  rw [this]
  rw [if_neg (by omega : ¬a < 9223372036854775808)]

/-- Evaluation of wrapping `u64` subtraction on in-range inputs. -/
theorem u64sub_eval {a b : Nat} (ha : a < U64M) (hb : b < U64M) :
    u64sub a b = if b ≤ a then a - b else U64M - (b - a) := by
  unfold u64sub U64M at *
  split
  all_goals omega

/-- On values below the sign boundary, the wrapping `s64` difference is
the mathematical difference. -/
theorem s64sub_eq_sub {a b : Nat} (ha : a < S64H) (hb : b < S64H) :
    s64sub a b = (a : Int) - b := by
  have haU : a < U64M := by unfold U64M S64H at *; omega
  have hbU : b < U64M := by unfold U64M S64H at *; omega
  unfold s64sub
  rw [u64sub_eval haU hbU]
  by_cases h : b ≤ a
  · rw [if_pos h, toS64_of_lt (by omega)]
    omega
  · rw [if_neg h, toS64_of_ge (by unfold U64M S64H at *; omega) (by unfold U64M at *; omega)]
    unfold U64M at *
    omega

/-- `s64wrap` is the identity on the `s64` range. -/
theorem s64wrap_of_range {x : Int} (h1 : -(S64H : Int) ≤ x) (h2 : x < S64H) :
    s64wrap x = x := by
  unfold s64wrap U64M S64H at *
  omega

/-- `Q_max` is far below the `s64` sign boundary for any `u32` capacity. -/
theorem q_max_of_lt (g : Het.EevdfCtx) (hcap : g.max_capacity < 2 ^ 32) :
    Het.q_max_of g < 2 ^ 57 := by
  unfold Het.q_max_of CAPACITY_SCALE SCX_SLICE_DFL
  have h32 : (2 : Nat) ^ 32 = 4294967296 := by norm_num
  have h57 : (2 : Nat) ^ 57 = 144115188075855872 := by norm_num
  rw [h32] at hcap
  rw [h57]
  split
  all_goals omega

/-- C3. After `enqueue`, the lag `V − v_e(p)` (with `V` the global virtual
time read at handler entry) is at most `Q_max = ρ_max·SLICE/CAP_SCALE`:
the lag as the scheduler measures it (the `s64` difference of the `u64`
virtual times, the repository's definition of lag) is bounded by `Q_max`
for every starting state, and under the additional bound `V < 2^63` the
plain natural-number difference `V − v_e` is also at most `Q_max`. -/
theorem claim_C3_lag_bounded_after_enqueue (g : Het.EevdfCtx)
    (p : Het.TaskState) (pcap : Nat)
    (hV : g.vtime_now < U64M) (hve : p.dsq_vtime < U64M)
    (hcap : g.max_capacity < 2 ^ 32) :
    s64sub g.vtime_now (Het.eevdf_enqueue g p pcap).task.dsq_vtime ≤
      (Het.q_max_of g : Int) ∧
    (g.vtime_now < S64H →
      g.vtime_now - (Het.eevdf_enqueue g p pcap).task.dsq_vtime ≤
        Het.q_max_of g) := by
  have hqm : Het.q_max_of g < S64H := by
    unfold Het.q_max_of CAPACITY_SCALE SCX_SLICE_DFL S64H
    have h32 : (2 : Nat) ^ 32 = 4294967296 := by norm_num
    rw [h32] at hcap
    split
    all_goals omega
  set V := g.vtime_now with hVdef
  set qm := Het.q_max_of g with hqmdef
  set minv : Nat := if V > qm then V - qm else 0 with hminv
  have henq : (Het.eevdf_enqueue g p pcap).task.dsq_vtime =
      if time_before p.dsq_vtime minv then minv else p.dsq_vtime := rfl
  have hminv1 : minv ≤ V := by rw [hminv]; split <;> omega
  have hminv2 : V - minv ≤ qm := by rw [hminv]; split <;> omega
  have hminvU : minv < U64M := by omega
  rw [henq]
  by_cases htb : time_before p.dsq_vtime minv
  · rw [if_pos htb]
    have hs : s64sub V minv = ((V : Int) - minv) := by
      unfold s64sub
      rw [u64sub_eval hV hminvU, if_pos hminv1, toS64_of_lt (by omega)]
      omega
    constructor
    · rw [hs]; omega
    · intro _; omega
  · rw [if_neg htb]
    have hne : ¬ toS64 (u64sub p.dsq_vtime minv) < 0 := by
      unfold time_before at htb
      simpa using htb
    rw [u64sub_eval hve hminvU] at hne
    by_cases hle : minv ≤ p.dsq_vtime
    · rw [if_pos hle] at hne
      -- not clamped, and the distance above the floor reads non-negative:
      -- the task is at most `2^63` past the floor
      have hd : p.dsq_vtime - minv < S64H := by
        by_contra hcon
        rw [toS64_of_ge (by omega) (by omega)] at hne
        unfold U64M S64H at *
        omega
      by_cases hvle : p.dsq_vtime ≤ V
      · have hs : s64sub V p.dsq_vtime = ((V : Int) - p.dsq_vtime) := by
          unfold s64sub
          rw [u64sub_eval hV hve, if_pos hvle, toS64_of_lt (by omega)]
          omega
        constructor
        · rw [hs]; omega
        · intro _; omega
      · have hfar : p.dsq_vtime - V < S64H := by omega
        have hs : s64sub V p.dsq_vtime = -(((p.dsq_vtime : Int)) - V) := by
          unfold s64sub
          rw [u64sub_eval hV hve, if_neg hvle,
            toS64_of_ge (by unfold U64M S64H at *; omega) (by unfold U64M at *; omega)]
          unfold U64M at *
          push_cast
          omega
        constructor
        · rw [hs]; omega
        · intro _; omega
    · rw [if_neg hle] at hne
      -- the task sits below the floor yet is not clamped: it must be more
      -- than `2^63` below, which forces `V ≥ 2^63`
      have hd : minv - p.dsq_vtime > S64H := by
        by_contra hcon
        rw [toS64_of_ge (by unfold U64M S64H at *; omega) (by unfold U64M at *; omega)] at hne
        unfold U64M S64H at *
        omega
      have hVbig : S64H < V := by omega
      have hvle : p.dsq_vtime ≤ V := by omega
      have hs : s64sub V p.dsq_vtime = ((V : Int) - p.dsq_vtime) - U64M := by
        unfold s64sub
        rw [u64sub_eval hV hve, if_pos hvle,
          toS64_of_ge (by unfold U64M S64H at *; omega) (by unfold U64M at *; omega)]
        omega
      constructor
      · rw [hs]
        have : ((V : Int) - p.dsq_vtime) - U64M < 0 := by
          unfold U64M at *
          omega
        omega
      · intro hVS
        unfold S64H at *
        omega

/-- Closed witness for C3 at a concrete state: `V = 10·Q_max`, `v_e = 0`
(the S6 scenario shape, with default capacity so `Q_max = SLICE`). -/
theorem claim_C3_lag_bounded_after_enqueue_witness :
    s64sub 200000000
        (Het.eevdf_enqueue ⟨200000000, 1, 1024⟩ ⟨1, 0, 0, ⟨0, 0⟩⟩ 1024).task.dsq_vtime ≤
      (Het.q_max_of ⟨200000000, 1, 1024⟩ : Int) ∧
    (200000000 < S64H →
      200000000 - (Het.eevdf_enqueue ⟨200000000, 1, 1024⟩ ⟨1, 0, 0, ⟨0, 0⟩⟩ 1024).task.dsq_vtime ≤
        Het.q_max_of ⟨200000000, 1, 1024⟩) :=
  claim_C3_lag_bounded_after_enqueue ⟨200000000, 1, 1024⟩ ⟨1, 0, 0, ⟨0, 0⟩⟩ 1024
    (by decide) (by decide) (by decide)


/-- C6. Class routing of `enqueue`: with `ℓ = V − v_e(p)` measured after
the lag clamp and `boost = Q_max/4 + 1`, the task goes to BIG when
`ℓ > boost`, to LITTLE when `ℓ < −boost`, and otherwise to the class of
its current CPU (`BIG` iff `100·ρ_c ≥ 90·ρ_max`).  `pcap` is the
capacity of the task's current CPU as `get_cpu_cap` reports it. -/
theorem claim_C6_enqueue_class_routing (g : Het.EevdfCtx)
    (p : Het.TaskState) (pcap : Nat)
    (hV : g.vtime_now < S64H) (hve : p.dsq_vtime < S64H)
    (hcap : g.max_capacity < 2 ^ 32) :
    (Het.eevdf_enqueue g p pcap).dsq_id =
      (if ((g.vtime_now : Int) - (Het.eevdf_enqueue g p pcap).task.dsq_vtime) >
          ((Het.q_max_of g / Het.LAG_BOOST_DIV + 1 : Nat) : Int) then
        Het.EEVDF_DSQ_BIG
      else if ((g.vtime_now : Int) - (Het.eevdf_enqueue g p pcap).task.dsq_vtime) <
          -((Het.q_max_of g / Het.LAG_BOOST_DIV + 1 : Nat) : Int) then
        Het.EEVDF_DSQ_LITTLE
      else
        Het.class_dsq_id pcap
          (if g.max_capacity = 0 then CAPACITY_SCALE else g.max_capacity)) := by
  have hqm : Het.q_max_of g < 2 ^ 57 := q_max_of_lt g hcap
  have hboost : Het.q_max_of g / 4 + 1 < S64H := by
    unfold S64H
    have : (2:Nat) ^ 57 = 144115188075855872 := by norm_num
    omega
  set V := g.vtime_now with hVdef
  set qm := Het.q_max_of g with hqmdef
  set minv : Nat := if V > qm then V - qm else 0 with hminv
  have henq : (Het.eevdf_enqueue g p pcap).task.dsq_vtime =
      if time_before p.dsq_vtime minv then minv else p.dsq_vtime := rfl
  set ve : Nat := (Het.eevdf_enqueue g p pcap).task.dsq_vtime with hvedef
  have hveS : ve < S64H := by
    rw [henq]
    split
    · rw [hminv]
      split
      all_goals omega
    · exact hve
  have hid : (Het.eevdf_enqueue g p pcap).dsq_id =
      Het.desired_dsq_for_task g ve pcap
        (if g.max_capacity = 0 then CAPACITY_SCALE else g.max_capacity) := rfl
  rw [hid]
  simp only [Het.desired_dsq_for_task, Het.LAG_BOOST_DIV]
  have hqeq : (if g.max_capacity = 0 then CAPACITY_SCALE else g.max_capacity) *
      SCX_SLICE_DFL / CAPACITY_SCALE = qm := rfl
  rw [hqeq]
  rw [s64sub_eq_sub hV hveS]
  have hboostI : ((qm / 4 + 1 : Nat) : Int) < 9223372036854775808 := by
    exact_mod_cast (show qm / 4 + 1 <
      9223372036854775808 from by unfold S64H at hboost; exact hboost)
  simp only [toS64_of_lt hboost,
    s64wrap_of_range (x := -((qm / 4 + 1 : Nat) : Int))
      (by unfold S64H; omega) (by unfold S64H; omega)]

/-- Closed witness for C6: `V = 10^8`, `v_e = 0`, default capacities; the
clamped lag equals `Q_max`, which exceeds `Q_max/4 + 1`, so the task is
routed to BIG. -/
theorem claim_C6_enqueue_class_routing_witness :
    (Het.eevdf_enqueue ⟨100000000, 1, 1024⟩ ⟨1, 0, 0, ⟨0, 0⟩⟩ 512).dsq_id =
      (if ((100000000 : Int) - (Het.eevdf_enqueue ⟨100000000, 1, 1024⟩ ⟨1, 0, 0, ⟨0, 0⟩⟩ 512).task.dsq_vtime) >
          ((Het.q_max_of ⟨100000000, 1, 1024⟩ / Het.LAG_BOOST_DIV + 1 : Nat) : Int) then
        Het.EEVDF_DSQ_BIG
      else if ((100000000 : Int) - (Het.eevdf_enqueue ⟨100000000, 1, 1024⟩ ⟨1, 0, 0, ⟨0, 0⟩⟩ 512).task.dsq_vtime) <
          -((Het.q_max_of ⟨100000000, 1, 1024⟩ / Het.LAG_BOOST_DIV + 1 : Nat) : Int) then
        Het.EEVDF_DSQ_LITTLE
      else
        Het.class_dsq_id 512 (if (1024 : Nat) = 0 then CAPACITY_SCALE else 1024)) :=
  claim_C6_enqueue_class_routing ⟨100000000, 1, 1024⟩ ⟨1, 0, 0, ⟨0, 0⟩⟩ 512
    (by decide) (by decide) (by decide)

/-- One scan step touches only the `cpu_capacity` map. -/
theorem scan_step_frame (sysfs : Nat → Option Nat)
    (acc : Agent.AgentMaps × Nat × Bool) (cpu : Nat) :
    (Agent.scan_step sysfs acc cpu).1.gdata = acc.1.gdata ∧
    (Agent.scan_step sysfs acc cpu).1.latency_hist = acc.1.latency_hist ∧
    (Agent.scan_step sysfs acc cpu).1.stats = acc.1.stats := by
  dsimp only [Agent.scan_step]
  split
  · exact ⟨rfl, rfl, rfl⟩
  · exact ⟨rfl, rfl, rfl⟩

/-- The whole per-CPU scan touches only the `cpu_capacity` map. -/
theorem scan_fold_frame (sysfs : Nat → Option Nat) (l : List Nat)
    (acc : Agent.AgentMaps × Nat × Bool) :
    (l.foldl (Agent.scan_step sysfs) acc).1.gdata = acc.1.gdata ∧
    (l.foldl (Agent.scan_step sysfs) acc).1.latency_hist = acc.1.latency_hist ∧
    (l.foldl (Agent.scan_step sysfs) acc).1.stats = acc.1.stats := by
  induction l generalizing acc with
  | nil => exact ⟨rfl, rfl, rfl⟩
  | cons c t ih =>
    have hstep := scan_step_frame sysfs acc c
    have htail := ih (Agent.scan_step sysfs acc c)
    simp only [List.foldl_cons]
    exact ⟨htail.1.trans hstep.1, htail.2.1.trans hstep.2.1,
      htail.2.2.trans hstep.2.2⟩

/-- C8. A capacity-refresh pass of the userspace agent never changes the
`vtime_now` and `total_weight` fields of `global_data[0]`: it writes back
exactly the values it read, modifying only `max_capacity`, and it touches
no map other than `cpu_capacity` and `global_data` — for every sysfs
content and every prior map state. -/
theorem claim_C8_agent_preserves_V_W (ncpu : Nat) (sysfs : Nat → Option Nat)
    (m : Agent.AgentMaps) :
    (Agent.refresh_cpu_capacities ncpu sysfs m).1.gdata.vtime_now =
      m.gdata.vtime_now ∧
    (Agent.refresh_cpu_capacities ncpu sysfs m).1.gdata.total_weight =
      m.gdata.total_weight ∧
    (Agent.refresh_cpu_capacities ncpu sysfs m).1.latency_hist =
      m.latency_hist ∧
    (Agent.refresh_cpu_capacities ncpu sysfs m).1.stats = m.stats := by
  have hscan := scan_fold_frame sysfs (List.range ncpu) (m, 0, false)
  unfold Agent.refresh_cpu_capacities
  set r := (List.range ncpu).foldl (Agent.scan_step sysfs) (m, 0, false) with hr
  dsimp only
  refine ⟨?_, ?_, ?_, ?_⟩
  all_goals split
  all_goals simp [hscan.1, hscan.2.1, hscan.2.2]
  all_goals split
  all_goals simp [hscan.1, hscan.2.1, hscan.2.2]

/-- The dispatch loop executes at most `fuel` iterations. -/
theorem dispatch_go_count_le {α : Type} (fuel : Nat)
    (st : List α × List α × List α) :
    (Het.dispatch_go fuel st).2 ≤ fuel := by
  induction fuel generalizing st with
  | zero => exact Nat.le_refl 0
  | succ n ih =>
    obtain ⟨ql, qo, loc⟩ := st
    cases ql with
    | cons t ts =>
      simpa [Het.dispatch_go] using Nat.succ_le_succ (ih (ts, qo, loc ++ [t]))
    | nil =>
      cases qo with
      | cons t ts =>
        simpa [Het.dispatch_go] using Nat.succ_le_succ (ih ([], ts, loc ++ [t]))
      | nil => simp [Het.dispatch_go]

/-- The dispatch loop only appends to the CPU-local queue. -/
theorem dispatch_go_loc_extends {α : Type} (fuel : Nat)
    (st : List α × List α × List α) :
    ∃ mv, (Het.dispatch_go fuel st).1.2.2 = st.2.2 ++ mv := by
  induction fuel generalizing st with
  | zero => exact ⟨[], by simp [Het.dispatch_go]⟩
  | succ n ih =>
    obtain ⟨ql, qo, loc⟩ := st
    cases ql with
    | cons t ts =>
      obtain ⟨mv, hmv⟩ := ih (ts, qo, loc ++ [t])
      exact ⟨t :: mv, by simpa [Het.dispatch_go] using hmv⟩
    | nil =>
      cases qo with
      | cons t ts =>
        obtain ⟨mv, hmv⟩ := ih ([], ts, loc ++ [t])
        exact ⟨t :: mv, by simpa [Het.dispatch_go] using hmv⟩
      | nil => exact ⟨[], by simp [Het.dispatch_go]⟩

/-- Counterexample to C7 as stated: with a zero runtime slot budget the
handler still performs one loop iteration (the code clamps `slots` to 1)
and moves a task, exceeding the claimed `min(runtime_slots, 8) = 0`
iteration bound. -/
theorem claim_C7_counterexample :
    (Het.eevdf_dispatch ⟨0, 0, 1024⟩ (fun _ => some 1024) 0 0
        ([7] : List Nat) [] []).2.2 = 1 ∧
    ¬ ((Het.eevdf_dispatch ⟨0, 0, 1024⟩ (fun _ => some 1024) 0 0
        ([7] : List Nat) [] []).2.2 ≤ min 0 8) ∧
    (Het.eevdf_dispatch ⟨0, 0, 1024⟩ (fun _ => some 1024) 0 0
        ([7] : List Nat) [] []).2.1.2.2 = [7] := by
  refine ⟨rfl, ?_, rfl⟩
  decide

/-- C7 (amended).  `dispatch(cpu)` performs at most
`min(max(runtime_slots, 1), 8)` iterations — the code clamps a zero slot
budget to one iteration, otherwise exactly the claimed `min(slots, 8)`
bound — trying the CPU's own class first and the other class on failure,
stopping when both fail; and when BIG is empty, LITTLE is non-empty and
the CPU is of class BIG, a task from LITTLE is promoted to the local
queue (the S5 spill). -/
theorem claim_C7_dispatch_bound_and_spill (g : Het.EevdfCtx)
    (caps : Nat → Option Nat) (cpu slots : Nat) (t : Nat)
    (big little loc ts : List Nat)
    (hbig : big = [])
    (hlittle : little = t :: ts)
    (hclass : Het.class_dsq_id (Het.get_cpu_cap caps cpu)
        (if g.max_capacity = 0 then CAPACITY_SCALE else g.max_capacity) =
      Het.EEVDF_DSQ_BIG) :
    (Het.eevdf_dispatch g caps cpu slots big little loc).2.2 ≤
      min (max slots 1) 8 ∧
    (∃ mv, (Het.eevdf_dispatch g caps cpu slots big little loc).2.1.2.2 =
      loc ++ t :: mv) := by
  have hslots : (if (if slots = 0 then 1 else slots) > Het.DISPATCH_BATCH_MAX
      then Het.DISPATCH_BATCH_MAX else (if slots = 0 then 1 else slots)) =
      min (max slots 1) 8 := by
    unfold Het.DISPATCH_BATCH_MAX
    rw [Nat.min_def, Nat.max_def]
    repeat' split
    all_goals omega
  simp only [Het.eevdf_dispatch, hclass, hbig, hlittle, hslots, if_pos]
  set f := min (max slots 1) 8 with hf
  have hfpos : 1 ≤ f := by
    rw [hf, Nat.min_def, Nat.max_def]
    repeat' split
    all_goals omega
  constructor
  · exact dispatch_go_count_le f ([], t :: ts, loc)
  · obtain ⟨n, hn⟩ : ∃ n, f = n + 1 := ⟨f - 1, by omega⟩
    rw [hn]
    obtain ⟨mv, hmv⟩ := dispatch_go_loc_extends n ([], ts, loc ++ [t])
    refine ⟨mv, ?_⟩
    simp only [Het.dispatch_go]
    simpa using hmv

/-- Closed witness for the amended C7: a BIG-class CPU with an empty BIG
queue and `[9]` in LITTLE promotes task 9; at most `min(max(4,1),8) = 4`
iterations run. -/
theorem claim_C7_dispatch_bound_and_spill_witness :
    (Het.eevdf_dispatch ⟨0, 0, 1024⟩ (fun _ => some 1024) 0 4
        ([] : List Nat) [9] []).2.2 ≤ min (max 4 1) 8 ∧
    (∃ mv, (Het.eevdf_dispatch ⟨0, 0, 1024⟩ (fun _ => some 1024) 0 4
        ([] : List Nat) [9] []).2.1.2.2 = [] ++ 9 :: mv) :=
  claim_C7_dispatch_bound_and_spill ⟨0, 0, 1024⟩ (fun _ => some 1024) 0 4 9
    [] [9] [] [] rfl rfl (by decide)

/-- `abs_s64_to_u64` computes the absolute value. -/
theorem abs_s64_to_u64_eq (v : Int) : Het.abs_s64_to_u64 v = v.natAbs := by
  unfold Het.abs_s64_to_u64
  split
  all_goals omega

/-- On in-range numerators, `div_signed_u64` is the sign-preserving
truncated division `sign(num)·(|num|/den)`. -/
theorem div_signed_u64_eq (num : Int) (den : Nat)
    (h1 : -(S64H : Int) < num) (h2 : num < (S64H : Int)) :
    Het.div_signed_u64 num den =
      if 0 ≤ num then ((num.natAbs / den : Nat) : Int)
      else -((num.natAbs / den : Nat) : Int) := by
  have hS : (S64H : Int) = 9223372036854775808 := by unfold S64H; norm_num
  unfold Het.div_signed_u64
  by_cases hden : den = 0
  · rw [if_pos hden, hden]
    simp only [Nat.div_zero]
    split
    all_goals norm_num
  · rw [if_neg hden]
    dsimp only
    rw [abs_s64_to_u64_eq]
    have hd : num.natAbs / den < S64H :=
      lt_of_le_of_lt (Nat.div_le_self _ _) (by omega)
    set d := num.natAbs / den with hdd
    clear_value d
    by_cases hneg : num < 0
    · rw [if_pos hneg, if_neg (by omega : ¬ 0 ≤ num)]
      rw [toS64_of_lt hd]
      exact s64wrap_of_range (by omega) (by omega)
    · rw [if_neg hneg, if_pos (by omega)]
      exact toS64_of_lt hd

/-- The difference of two sign-preserving truncated divisions of the same
in-range lag stays in the `s64` range. -/
theorem signed_div_diff_bound (l : Int) (w1 w2 : Nat) (h : l.natAbs < S64H) :
    -(S64H : Int) ≤
      ((if 0 ≤ l then ((l.natAbs / w1 : Nat) : Int)
        else -((l.natAbs / w1 : Nat) : Int)) -
       (if 0 ≤ l then ((l.natAbs / w2 : Nat) : Int)
        else -((l.natAbs / w2 : Nat) : Int))) ∧
    ((if 0 ≤ l then ((l.natAbs / w1 : Nat) : Int)
      else -((l.natAbs / w1 : Nat) : Int)) -
     (if 0 ≤ l then ((l.natAbs / w2 : Nat) : Int)
      else -((l.natAbs / w2 : Nat) : Int))) < (S64H : Int) := by
  have ha : l.natAbs / w1 ≤ l.natAbs := Nat.div_le_self _ _
  have hb : l.natAbs / w2 ≤ l.natAbs := Nat.div_le_self _ _
  set a := l.natAbs / w1 with haa
  set b := l.natAbs / w2 with hbb
  clear_value a b
  by_cases hpos : 0 ≤ l
  · simp only [if_pos hpos]
    constructor
    all_goals omega
  · simp only [if_neg hpos]
    constructor
    all_goals omega

/-- C2. `set_weight(p, w_new)` with `W_old = G.W` and
`W_new = W_old − w_old + w_new` both positive (and the state in `u64`/`s64`
range, `w_old ≤ W_old`, no overflow of the new sum) sets `G.W := W_new` and
adds `Δ = sign(ℓ)·(|ℓ|/W_old) − sign(ℓ)·(|ℓ|/W_new)` to `G.V` with
saturating arithmetic, where `ℓ = G.V − v_e(p)` and divisions truncate. -/
theorem claim_C2_set_weight_reindex (g : Het.EevdfCtx) (p : Het.TaskState)
    (new_weight : Nat)
    (hV : g.vtime_now < S64H) (hve : p.dsq_vtime < S64H)
    (hw : 1 ≤ p.weight) (hnw : 1 ≤ new_weight)
    (hle : p.weight ≤ g.total_weight) (hWpos : 0 < g.total_weight)
    (hsum : g.total_weight - p.weight + new_weight < U64M)
    (hpos2 : 0 < g.total_weight - p.weight + new_weight) :
    (Het.eevdf_set_weight g p new_weight).1.total_weight =
      g.total_weight - p.weight + new_weight ∧
    (Het.eevdf_set_weight g p new_weight).1.vtime_now =
      Het.add_signed_vtime g.vtime_now
        ((if 0 ≤ ((g.vtime_now : Int) - p.dsq_vtime) then
            ((((g.vtime_now : Int) - p.dsq_vtime).natAbs / g.total_weight : Nat) : Int)
          else
            -((((g.vtime_now : Int) - p.dsq_vtime).natAbs / g.total_weight : Nat) : Int)) -
         (if 0 ≤ ((g.vtime_now : Int) - p.dsq_vtime) then
            ((((g.vtime_now : Int) - p.dsq_vtime).natAbs /
              (g.total_weight - p.weight + new_weight) : Nat) : Int)
          else
            -((((g.vtime_now : Int) - p.dsq_vtime).natAbs /
              (g.total_weight - p.weight + new_weight) : Nat) : Int))) := by
  have hw0 : (if p.weight = 0 then 1 else p.weight) = p.weight := by
    rw [if_neg (by omega)]
  have hnw0 : (if new_weight = 0 then 1 else new_weight) = new_weight := by
    rw [if_neg (by omega)]
  have htw : (if g.total_weight ≥ p.weight then g.total_weight - p.weight
      else g.total_weight) = g.total_weight - p.weight := by
    rw [if_pos hle]
  have huadd : u64add (g.total_weight - p.weight) new_weight =
      g.total_weight - p.weight + new_weight := by
    unfold u64add U64M at *
    omega
  have hguard : ¬ (g.total_weight = 0 ∨
      g.total_weight - p.weight + new_weight = 0) := by omega
  set lag : Int := (g.vtime_now : Int) - p.dsq_vtime with hlag
  have hlag1 : -(S64H : Int) < lag := by omega
  have hlag2 : lag < (S64H : Int) := by omega
  have hNA : lag.natAbs < S64H := by omega
  have hbound := signed_div_diff_bound lag g.total_weight
    (g.total_weight - p.weight + new_weight) hNA
  simp only [Het.eevdf_set_weight, hw0, hnw0, htw, huadd]
  rw [if_neg hguard]
  have hlageq : s64sub g.vtime_now p.dsq_vtime = lag := s64sub_eq_sub hV hve
  simp only [hlageq]
  rw [div_signed_u64_eq lag g.total_weight hlag1 hlag2,
    div_signed_u64_eq lag (g.total_weight - p.weight + new_weight) hlag1 hlag2]
  rw [s64wrap_of_range hbound.1 hbound.2]
  refine ⟨?_, ?_⟩
  all_goals trivial

/-- Closed witness for C2: the S3 scenario.  `W = 10`, `V = 1000000`,
`v_e(p) = 500000`, `w_old = 2`, `w_new = 8` gives
`Δ = 50000 − 31250 = 18750`, so `V := 1018750` and `W := 16`. -/
theorem claim_C2_set_weight_reindex_witness :
    (Het.eevdf_set_weight ⟨1000000, 10, 0⟩ ⟨2, 0, 500000, ⟨0, 0⟩⟩ 8).1.total_weight = 16 ∧
    (Het.eevdf_set_weight ⟨1000000, 10, 0⟩ ⟨2, 0, 500000, ⟨0, 0⟩⟩ 8).1.vtime_now = 1018750 := by
  have h := claim_C2_set_weight_reindex ⟨1000000, 10, 0⟩ ⟨2, 0, 500000, ⟨0, 0⟩⟩ 8
    (by decide) (by decide) (by decide) (by decide) (by decide) (by decide)
    (by decide) (by decide)
  exact ⟨h.1.trans (by norm_num), h.2.trans (by decide)⟩

/-- Below the sign boundary, `time_before` is the plain order. -/
theorem time_before_eq {a b : Nat} (ha : a < S64H) (hb : b < S64H) :
    time_before a b = decide (a < b) := by
  have haU : a < U64M := by unfold U64M S64H at *; omega
  have hbU : b < U64M := by unfold U64M S64H at *; omega
  unfold time_before
  rw [u64sub_eval haU hbU]
  by_cases h : b ≤ a
  · rw [if_pos h, toS64_of_lt (by omega)]
    simp only [decide_eq_decide]
    omega
  · rw [if_neg h, toS64_of_ge (by unfold U64M S64H at *; omega) (by unfold U64M at *; omega)]
    simp only [decide_eq_decide]
    unfold U64M at *
    omega

/-- Saturating addition never loses more than the magnitude of the delta. -/
theorem add_signed_vtime_lower (v : Nat) (delta : Int) (hv : v < U64M) :
    (v : Int) - delta.natAbs ≤ (Het.add_signed_vtime v delta : Int) := by
  unfold Het.add_signed_vtime
  split
  · dsimp only
    split
    · unfold U64M at *
      omega
    · omega
  · rw [abs_s64_to_u64_eq]
    dsimp only
    split
    all_goals omega

/-- Saturating addition of a non-negative delta never decreases the value. -/
theorem add_signed_vtime_ge_self (v : Nat) (delta : Int) (hd : 0 ≤ delta)
    (hv : v < U64M) : v ≤ Het.add_signed_vtime v delta := by
  unfold Het.add_signed_vtime
  rw [if_pos hd]
  dsimp only
  split
  · unfold U64M at *
    omega
  · omega

/-- Counterexample to C1 as stated: three concrete states where `vtime_now`
regresses beyond what the claim permits.  `running` at `V = 2^63`,
`v_e = 0` resets `V` to 0 (the wrapping `time_before` comparison fires);
`stopping` at `V = 2^64 − 1` wraps `V` down to `1999999999`; and
`set_weight` from `V = 1000`, `W = 1`, `v_e = 1100`, `w_new = 100`
lowers `V` to `901` although the claimed bound `|ℓ|/W_new = 100/100 = 1`
only permits a drop to `999`. -/
theorem claim_C1_counterexample :
    (Het.eevdf_running ⟨9223372036854775808, 0, 0⟩ ⟨1, 0, 0, ⟨0, 0⟩⟩).vtime_now = 0 ∧
    (Het.eevdf_stopping ⟨18446744073709551615, 1, 0⟩ ⟨1, 0, 0, ⟨0, 0⟩⟩ 1024).1.vtime_now
      = 1999999999 ∧
    (Het.eevdf_set_weight ⟨1000, 1, 0⟩ ⟨1, 0, 1100, ⟨0, 0⟩⟩ 100).1.vtime_now = 901 ∧
    (Het.eevdf_set_weight ⟨1000, 1, 0⟩ ⟨1, 0, 1100, ⟨0, 0⟩⟩ 100).1.vtime_now +
      ((1000 : Int) - 1100).natAbs /
        (Het.eevdf_set_weight ⟨1000, 1, 0⟩ ⟨1, 0, 1100, ⟨0, 0⟩⟩ 100).1.total_weight
      < 1000 := by
  refine ⟨?_, ?_, ?_, ?_⟩
  all_goals decide

/-- `running` never decreases `vtime_now` below the sign boundary. -/
theorem running_mono (g : Het.EevdfCtx) (p : Het.TaskState)
    (hV : g.vtime_now < S64H) (hve : p.dsq_vtime < S64H) :
    g.vtime_now ≤ (Het.eevdf_running g p).vtime_now := by
  unfold Het.eevdf_running
  rw [time_before_eq hV hve]
  split
  · rename_i h
    simp only [decide_eq_true_eq] at h
    exact Nat.le_of_lt h
  · exact Nat.le_refl _

/-- `stopping` never decreases `vtime_now` when its `u64` addition does
not overflow. -/
theorem stopping_mono (g : Het.EevdfCtx) (p : Het.TaskState) (cap : Nat)
    (hstop : g.vtime_now +
      (if g.total_weight = 0 then 0
       else Het.svc_vtime p cap / g.total_weight) < U64M) :
    g.vtime_now ≤ (Het.eevdf_stopping g p cap).1.vtime_now := by
  unfold Het.eevdf_stopping
  dsimp only
  split
  · rename_i h
    rw [if_neg h] at hstop
    show g.vtime_now ≤ u64add g.vtime_now (Het.svc_vtime p cap / g.total_weight)
    set q := Het.svc_vtime p cap / g.total_weight with hq
    clear_value q
    unfold u64add U64M at *
    omega
  · exact Nat.le_refl _

/-- The correction `add_signed_vtime(v, s64wrap(-div_signed_u64(l, ns)))`
(the `enable` shape) lowers `v` by at most `|l|/ns`. -/
theorem vtime_corr_lower_neg (v ve ns : Nat) (hv : v < S64H)
    (hveS : ve < S64H) :
    (v : Int) - ((s64sub v ve).natAbs / ns : Nat) ≤
      (Het.add_signed_vtime v
        (s64wrap (-(Het.div_signed_u64 (s64sub v ve) ns))) : Int) := by
  have hVU : v < U64M := by unfold U64M S64H at *; omega
  rw [s64sub_eq_sub hv hveS]
  set l : Int := (v : Int) - ve with hldef
  have hl1 : -(S64H : Int) < l := by omega
  have hl2 : l < (S64H : Int) := by omega
  rw [div_signed_u64_eq l ns hl1 hl2]
  have hdle : l.natAbs / ns ≤ l.natAbs := Nat.div_le_self _ _
  set d := l.natAbs / ns with hd
  clear_value d
  have hdS : d < S64H := by omega
  by_cases hpos : 0 ≤ l
  · rw [if_pos hpos]
    rw [s64wrap_of_range (by omega) (by omega)]
    have hlow := add_signed_vtime_lower v (-(d : Int)) hVU
    simpa using hlow
  · rw [if_neg hpos]
    simp only [neg_neg]
    rw [s64wrap_of_range (by omega) (by omega)]
    have hge := add_signed_vtime_ge_self v (d : Int) (by omega) hVU
    omega

/-- The correction `add_signed_vtime(v, div_signed_u64(l, ns))`
(the `disable` shape) lowers `v` by at most `|l|/ns`. -/
theorem vtime_corr_lower_pos (v ve ns : Nat) (hv : v < S64H)
    (hveS : ve < S64H) :
    (v : Int) - ((s64sub v ve).natAbs / ns : Nat) ≤
      (Het.add_signed_vtime v (Het.div_signed_u64 (s64sub v ve) ns) : Int) := by
  have hVU : v < U64M := by unfold U64M S64H at *; omega
  rw [s64sub_eq_sub hv hveS]
  set l : Int := (v : Int) - ve with hldef
  have hl1 : -(S64H : Int) < l := by omega
  have hl2 : l < (S64H : Int) := by omega
  rw [div_signed_u64_eq l ns hl1 hl2]
  have hdle : l.natAbs / ns ≤ l.natAbs := Nat.div_le_self _ _
  set d := l.natAbs / ns with hd
  clear_value d
  have hdS : d < S64H := by omega
  by_cases hpos : 0 ≤ l
  · rw [if_pos hpos]
    have hge := add_signed_vtime_ge_self v (d : Int) (by omega) hVU
    omega
  · rw [if_neg hpos]
    have hlow := add_signed_vtime_lower v (-(d : Int)) hVU
    simpa using hlow

/-- The correction `add_signed_vtime(v, s64wrap(div(l,n1) - div(l,n2)))`
(the `set_weight` shape) lowers `v` by at most `max(|l|/n1, |l|/n2)`. -/
theorem vtime_corr_lower_diff (v ve n1 n2 : Nat) (hv : v < S64H)
    (hveS : ve < S64H) :
    (v : Int) - ((max ((s64sub v ve).natAbs / n1)
        ((s64sub v ve).natAbs / n2) : Nat) : Int) ≤
      (Het.add_signed_vtime v
        (s64wrap (Het.div_signed_u64 (s64sub v ve) n1 -
          Het.div_signed_u64 (s64sub v ve) n2)) : Int) := by
  have hVU : v < U64M := by unfold U64M S64H at *; omega
  rw [s64sub_eq_sub hv hveS]
  set l : Int := (v : Int) - ve with hldef
  have hl1 : -(S64H : Int) < l := by omega
  have hl2 : l < (S64H : Int) := by omega
  have hbound := signed_div_diff_bound l n1 n2 (by omega)
  rw [div_signed_u64_eq l n1 hl1 hl2, div_signed_u64_eq l n2 hl1 hl2]
  rw [s64wrap_of_range hbound.1 hbound.2]
  have hd1 : l.natAbs / n1 ≤ l.natAbs := Nat.div_le_self _ _
  have hd2 : l.natAbs / n2 ≤ l.natAbs := Nat.div_le_self _ _
  set d1 := l.natAbs / n1 with hdd1
  set d2 := l.natAbs / n2 with hdd2
  clear_value d1 d2
  by_cases hpos : 0 ≤ l
  · simp only [if_pos hpos]
    have hlow := add_signed_vtime_lower v ((d1 : Int) - d2) hVU
    omega
  · simp only [if_neg hpos]
    have hlow := add_signed_vtime_lower v (-(d1 : Int) - -(d2 : Int)) hVU
    omega

/-- `enable` lowers `vtime_now` by at most `|ℓ|/W_new`, with `ℓ` the lag
against the (possibly initialized) task virtual time and `W_new` the new
active weight sum. -/
theorem enable_V_bound (g : Het.EevdfCtx) (p : Het.TaskState)
    (hV : g.vtime_now < S64H) (hve : p.dsq_vtime < S64H) :
    (g.vtime_now : Int) -
        ((s64sub g.vtime_now (Het.eevdf_enable g p).2.dsq_vtime).natAbs /
          (Het.eevdf_enable g p).1.total_weight : Nat) ≤
      ((Het.eevdf_enable g p).1.vtime_now : Int) := by
  by_cases hc : p.dsq_vtime = 0
  · by_cases hn : (u64add g.total_weight (if p.weight = 0 then 1 else p.weight)) = 0
    · simp [Het.eevdf_enable, hc, hn]
    · have h := vtime_corr_lower_neg g.vtime_now g.vtime_now
        (u64add g.total_weight (if p.weight = 0 then 1 else p.weight)) hV hV
      simp [Het.eevdf_enable, hc, hn]
      push_cast at h
      linarith
  · by_cases hn : (u64add g.total_weight (if p.weight = 0 then 1 else p.weight)) = 0
    · simp [Het.eevdf_enable, hc, hn]
    · have h := vtime_corr_lower_neg g.vtime_now p.dsq_vtime
        (u64add g.total_weight (if p.weight = 0 then 1 else p.weight)) hV hve
      simp [Het.eevdf_enable, hc, hn]
      push_cast at h
      linarith

/-- `disable` lowers `vtime_now` by at most `|ℓ|/W_new`. -/
theorem disable_V_bound (g : Het.EevdfCtx) (p : Het.TaskState)
    (hV : g.vtime_now < S64H) (hve : p.dsq_vtime < S64H) :
    (g.vtime_now : Int) -
        ((s64sub g.vtime_now p.dsq_vtime).natAbs /
          (Het.eevdf_disable g p).1.total_weight : Nat) ≤
      ((Het.eevdf_disable g p).1.vtime_now : Int) := by
  by_cases hn : (if g.total_weight ≥ (if p.weight = 0 then 1 else p.weight)
      then g.total_weight - (if p.weight = 0 then 1 else p.weight) else 0) = 0
  · simp [Het.eevdf_disable, hn]
  · have h := vtime_corr_lower_pos g.vtime_now p.dsq_vtime
      (if g.total_weight ≥ (if p.weight = 0 then 1 else p.weight)
       then g.total_weight - (if p.weight = 0 then 1 else p.weight) else 0)
      hV hve
    simp [Het.eevdf_disable, hn]
    push_cast at h
    linarith

/-- `set_weight` lowers `vtime_now` by at most
`max(|ℓ|/W_old, |ℓ|/W_new)`. -/
theorem set_weight_V_bound (g : Het.EevdfCtx) (p : Het.TaskState)
    (new_weight : Nat) (hV : g.vtime_now < S64H) (hve : p.dsq_vtime < S64H) :
    (g.vtime_now : Int) -
        ((max ((s64sub g.vtime_now p.dsq_vtime).natAbs / g.total_weight)
          ((s64sub g.vtime_now p.dsq_vtime).natAbs /
            (Het.eevdf_set_weight g p new_weight).1.total_weight) : Nat) : Int) ≤
      ((Het.eevdf_set_weight g p new_weight).1.vtime_now : Int) := by
  by_cases hg : (g.total_weight = 0 ∨
      u64add (if g.total_weight ≥ (if p.weight = 0 then 1 else p.weight)
        then g.total_weight - (if p.weight = 0 then 1 else p.weight)
        else g.total_weight) (if new_weight = 0 then 1 else new_weight) = 0)
  · simp only [Het.eevdf_set_weight, if_pos hg]
    have hx : ∀ n : Nat, (g.vtime_now : Int) - n ≤ g.vtime_now := fun n => by omega
    exact hx _
  · have h := vtime_corr_lower_diff g.vtime_now p.dsq_vtime g.total_weight
      (u64add (if g.total_weight ≥ (if p.weight = 0 then 1 else p.weight)
        then g.total_weight - (if p.weight = 0 then 1 else p.weight)
        else g.total_weight) (if new_weight = 0 then 1 else new_weight))
      hV hve
    simp only [Het.eevdf_set_weight, if_neg hg]
    exact h

/-- C1 (amended). `vtime_now` never regresses across `enqueue` and
`dispatch` (they do not write it), nor across `running` and `stopping`
provided the wrapping comparisons and additions operate in range
(`V, v_e < 2^63`; the `stopping` increment does not overflow `u64`); the
bounded corrections of `enable` and `disable` decrease `V` by at most
`|ℓ|/W_new`, and the one of `set_weight` by at most
`max(|ℓ|/W_old, |ℓ|/W_new)` — the claim's `|ℓ|/W_new` bound alone is too
small for `set_weight` when `W_old < W_new` and the lag is negative. -/
theorem claim_C1_vtime_monotonicity_amended (g : Het.EevdfCtx)
    (p : Het.TaskState) (pcap cap cpu slots new_weight : Nat)
    (caps : Nat → Option Nat) (big little loc : List Nat)
    (hV : g.vtime_now < S64H) (hve : p.dsq_vtime < S64H)
    (hstop : g.vtime_now +
      (if g.total_weight = 0 then 0
       else Het.svc_vtime p cap / g.total_weight) < U64M) :
    (Het.eevdf_enqueue g p pcap).gdata.vtime_now = g.vtime_now ∧
    (Het.eevdf_dispatch g caps cpu slots big little loc).1.vtime_now =
      g.vtime_now ∧
    g.vtime_now ≤ (Het.eevdf_running g p).vtime_now ∧
    g.vtime_now ≤ (Het.eevdf_stopping g p cap).1.vtime_now ∧
    (g.vtime_now : Int) -
        ((s64sub g.vtime_now (Het.eevdf_enable g p).2.dsq_vtime).natAbs /
          (Het.eevdf_enable g p).1.total_weight : Nat) ≤
      ((Het.eevdf_enable g p).1.vtime_now : Int) ∧
    (g.vtime_now : Int) -
        ((s64sub g.vtime_now p.dsq_vtime).natAbs /
          (Het.eevdf_disable g p).1.total_weight : Nat) ≤
      ((Het.eevdf_disable g p).1.vtime_now : Int) ∧
    (g.vtime_now : Int) -
        ((max ((s64sub g.vtime_now p.dsq_vtime).natAbs / g.total_weight)
          ((s64sub g.vtime_now p.dsq_vtime).natAbs /
            (Het.eevdf_set_weight g p new_weight).1.total_weight) : Nat) : Int) ≤
      ((Het.eevdf_set_weight g p new_weight).1.vtime_now : Int) :=
  ⟨rfl,
    by
      unfold Het.eevdf_dispatch
      dsimp only
      split
      all_goals split
      all_goals rfl,
    running_mono g p hV hve, stopping_mono g p cap hstop,
    enable_V_bound g p hV hve, disable_V_bound g p hV hve,
    set_weight_V_bound g p new_weight hV hve⟩

/-- Closed witness for the amended C1 at a concrete in-range state. -/
theorem claim_C1_vtime_monotonicity_amended_witness :
    (Het.eevdf_enqueue ⟨1000, 5, 1024⟩ ⟨2, 0, 700, ⟨0, 0⟩⟩ 1024).gdata.vtime_now = 1000 ∧
    (Het.eevdf_dispatch ⟨1000, 5, 1024⟩ (fun _ => some 1024) 0 1
        ([] : List Nat) [] []).1.vtime_now = 1000 ∧
    1000 ≤ (Het.eevdf_running ⟨1000, 5, 1024⟩ ⟨2, 0, 700, ⟨0, 0⟩⟩).vtime_now ∧
    1000 ≤ (Het.eevdf_stopping ⟨1000, 5, 1024⟩ ⟨2, 0, 700, ⟨0, 0⟩⟩ 1024).1.vtime_now ∧
    ((1000 : Nat) : Int) -
        ((s64sub 1000 (Het.eevdf_enable ⟨1000, 5, 1024⟩ ⟨2, 0, 700, ⟨0, 0⟩⟩).2.dsq_vtime).natAbs /
          (Het.eevdf_enable ⟨1000, 5, 1024⟩ ⟨2, 0, 700, ⟨0, 0⟩⟩).1.total_weight : Nat) ≤
      ((Het.eevdf_enable ⟨1000, 5, 1024⟩ ⟨2, 0, 700, ⟨0, 0⟩⟩).1.vtime_now : Int) ∧
    ((1000 : Nat) : Int) -
        ((s64sub 1000 700).natAbs /
          (Het.eevdf_disable ⟨1000, 5, 1024⟩ ⟨2, 0, 700, ⟨0, 0⟩⟩).1.total_weight : Nat) ≤
      ((Het.eevdf_disable ⟨1000, 5, 1024⟩ ⟨2, 0, 700, ⟨0, 0⟩⟩).1.vtime_now : Int) ∧
    ((1000 : Nat) : Int) -
        ((max ((s64sub 1000 700).natAbs / 5)
          ((s64sub 1000 700).natAbs /
            (Het.eevdf_set_weight ⟨1000, 5, 1024⟩ ⟨2, 0, 700, ⟨0, 0⟩⟩ 3).1.total_weight) : Nat) : Int) ≤
      ((Het.eevdf_set_weight ⟨1000, 5, 1024⟩ ⟨2, 0, 700, ⟨0, 0⟩⟩ 3).1.vtime_now : Int) :=
  claim_C1_vtime_monotonicity_amended ⟨1000, 5, 1024⟩ ⟨2, 0, 700, ⟨0, 0⟩⟩
    1024 1024 0 1 3 (fun _ => some 1024) [] [] []
    (by decide) (by decide) (by decide)

/-- Counterexample to C9 as stated: at `V = 0` a task with
`v_e = 2^63` is clamped DOWN to 0 by `enqueue` (the wrapping `time_before`
fires although the task is far ahead), and `stopping` on a task with
`v_e = 2^64 − 1` wraps `dsq_vtime` around to `1999999999`. -/
theorem claim_C9_counterexample :
    (Het.eevdf_enqueue ⟨0, 0, 1024⟩ ⟨1, 0, 9223372036854775808, ⟨0, 0⟩⟩
        1024).task.dsq_vtime = 0 ∧
    (Het.eevdf_stopping ⟨0, 1, 1024⟩ ⟨1, 0, 18446744073709551615, ⟨0, 0⟩⟩
        1024).2.dsq_vtime = 1999999999 ∧
    (Het.eevdf_stopping ⟨0, 1, 1024⟩ ⟨1, 0, 18446744073709551615, ⟨0, 0⟩⟩
        1024).2.dsq_vtime < 18446744073709551615 := by
  refine ⟨?_, ?_, ?_⟩
  all_goals decide

/-- C9 (amended).  The per-task virtual time `dsq_vtime` is non-decreasing
across every handler that writes it, provided the wrapping comparison and
addition stay in range (`V, v_e < 2^63` for the `enqueue` clamp; no `u64`
overflow of the `stopping` increment): `enqueue` can only raise it,
`stopping` adds a non-negative increment, `enable` overwrites it (with the
non-negative `V`) only when it is 0, and `set_weight` and `disable` leave
it unchanged.  (`running` and `dispatch` do not write any task field; in
this embedding they do not even return a task.) -/
theorem claim_C9_task_vtime_monotonic_amended (g : Het.EevdfCtx)
    (p : Het.TaskState) (pcap cap new_weight : Nat)
    (hV : g.vtime_now < S64H) (hve : p.dsq_vtime < S64H)
    (hstop2 : p.dsq_vtime +
      (Het.div_by_weight_cached (Het.svc_vtime p cap)
        (if p.weight = 0 then 1 else p.weight) p.tctx).1 < U64M) :
    p.dsq_vtime ≤ (Het.eevdf_enqueue g p pcap).task.dsq_vtime ∧
    p.dsq_vtime ≤ (Het.eevdf_stopping g p cap).2.dsq_vtime ∧
    p.dsq_vtime ≤ (Het.eevdf_enable g p).2.dsq_vtime ∧
    (Het.eevdf_set_weight g p new_weight).2.dsq_vtime = p.dsq_vtime ∧
    (Het.eevdf_disable g p).2.dsq_vtime = p.dsq_vtime := by
  refine ⟨?_, ?_, ?_, ?_, ?_⟩
  · -- enqueue only raises the task virtual time
    set V := g.vtime_now with hVdef
    set qm := Het.q_max_of g with hqmdef
    set minv : Nat := if V > qm then V - qm else 0 with hminv
    have henq : (Het.eevdf_enqueue g p pcap).task.dsq_vtime =
        if time_before p.dsq_vtime minv then minv else p.dsq_vtime := rfl
    have hminvS : minv < S64H := by
      rw [hminv]
      split
      all_goals omega
    rw [henq, time_before_eq hve hminvS]
    split
    · rename_i h
      simp only [decide_eq_true_eq] at h
      omega
    · exact Nat.le_refl _
  · -- stopping adds the weighted service share
    have hst : (Het.eevdf_stopping g p cap).2.dsq_vtime =
        u64add p.dsq_vtime
          (Het.div_by_weight_cached (Het.svc_vtime p cap)
            (if p.weight = 0 then 1 else p.weight) p.tctx).1 := by
      unfold Het.eevdf_stopping
      dsimp only
    rw [hst]
    unfold u64add U64M at *
    omega
  · -- enable initializes a zero virtual time to V
    by_cases hc : p.dsq_vtime = 0 <;> simp [Het.eevdf_enable, hc]
  · -- set_weight touches only the weight cache
    unfold Het.eevdf_set_weight
    dsimp only
    repeat' split
    all_goals rfl
  · -- disable touches only the weight sum and releases storage
    unfold Het.eevdf_disable
    dsimp only

/-- Closed witness for the amended C9 at a concrete in-range state. -/
theorem claim_C9_task_vtime_monotonic_amended_witness :
    (700 : Nat) ≤ (Het.eevdf_enqueue ⟨1000, 5, 1024⟩ ⟨2, 0, 700, ⟨0, 0⟩⟩ 1024).task.dsq_vtime ∧
    (700 : Nat) ≤ (Het.eevdf_stopping ⟨1000, 5, 1024⟩ ⟨2, 0, 700, ⟨0, 0⟩⟩ 1024).2.dsq_vtime ∧
    (700 : Nat) ≤ (Het.eevdf_enable ⟨1000, 5, 1024⟩ ⟨2, 0, 700, ⟨0, 0⟩⟩).2.dsq_vtime ∧
    (Het.eevdf_set_weight ⟨1000, 5, 1024⟩ ⟨2, 0, 700, ⟨0, 0⟩⟩ 3).2.dsq_vtime = 700 ∧
    (Het.eevdf_disable ⟨1000, 5, 1024⟩ ⟨2, 0, 700, ⟨0, 0⟩⟩).2.dsq_vtime = 700 :=
  claim_C9_task_vtime_monotonic_amended ⟨1000, 5, 1024⟩ ⟨2, 0, 700, ⟨0, 0⟩⟩
    1024 1024 3 (by decide) (by decide) (by decide)

/-- Pushing `some` through a conditional. -/
theorem ite_some_push {α : Type} (c : Prop) [Decidable c] (x y : α) :
    (if c then some x else some y) = some (if c then x else y) := by
  split <;> rfl

/-- The checked weight-cache refresh always succeeds and agrees with the
plain one: both divisions it runs have positive divisors. -/
theorem refresh_weight_cacheC_eq (t : Het.TaskCtx) (w : Nat) :
    Checked.refresh_weight_cacheC t w = some (Het.refresh_weight_cache t w) := by
  unfold Checked.refresh_weight_cacheC Het.refresh_weight_cache
    Checked.checkedDiv
  by_cases hw : w = 0
  · simp [hw]
    split <;> rfl
  · simp [hw]
    split <;> rfl

/-- The checked cached division always succeeds and agrees with the plain
one. -/
theorem div_by_weight_cachedC_eq (val w : Nat) (t : Het.TaskCtx) :
    Checked.div_by_weight_cachedC val w t =
      some (Het.div_by_weight_cached val w t) := by
  unfold Checked.div_by_weight_cachedC Het.div_by_weight_cached
  dsimp only
  rw [refresh_weight_cacheC_eq]
  by_cases hw : w = 0
  · simp [hw, Checked.checkedDiv, Het.INV_SHIFT]
    exact ite_some_push _ _ _
  · simp [hw, Checked.checkedDiv, Het.INV_SHIFT]
    exact ite_some_push _ _ _

/-- The checked signed division always succeeds and agrees with the plain
one: the zero-denominator branch returns 0 without dividing. -/
theorem div_signed_u64C_eq (num : Int) (den : Nat) :
    Checked.div_signed_u64C num den = some (Het.div_signed_u64 num den) := by
  unfold Checked.div_signed_u64C Het.div_signed_u64 Checked.checkedDiv
  by_cases hden : den = 0
  · simp [hden]
  · simp [hden]
    exact ite_some_push _ _ _

/-- The checked service computation always succeeds (it divides by the
constant `CAPACITY_SCALE`). -/
theorem svc_vtimeC_eq (p : Het.TaskState) (cap : Nat) :
    Checked.svc_vtimeC p cap = some (Het.svc_vtime p cap) := by
  unfold Checked.svc_vtimeC Het.svc_vtime Checked.checkedDiv CAPACITY_SCALE
  simp

/-- The checked class choice always succeeds and agrees with the plain
one. -/
theorem desired_dsq_for_taskC_eq (g : Het.EevdfCtx) (ve pcap mc : Nat) :
    Checked.desired_dsq_for_taskC g ve pcap mc =
      some (Het.desired_dsq_for_task g ve pcap mc) := by
  unfold Checked.desired_dsq_for_taskC Het.desired_dsq_for_task
    Checked.checkedDiv CAPACITY_SCALE Het.LAG_BOOST_DIV
  simp
  simp only [ite_some_push]

/-- The checked `enqueue` always succeeds and agrees with the plain one. -/
theorem eevdf_enqueueC_eq (g : Het.EevdfCtx) (p : Het.TaskState) (pcap : Nat) :
    Checked.eevdf_enqueueC g p pcap = some (Het.eevdf_enqueue g p pcap) := by
  unfold Checked.eevdf_enqueueC Het.eevdf_enqueue
  dsimp only
  simp [Checked.checkedDiv, CAPACITY_SCALE, refresh_weight_cacheC_eq,
    div_by_weight_cachedC_eq, desired_dsq_for_taskC_eq]

/-- The checked `stopping` always succeeds and agrees with the plain one:
the division by `total_weight` is guarded by `total_weight ≠ 0`. -/
theorem eevdf_stoppingC_eq (g : Het.EevdfCtx) (p : Het.TaskState) (cap : Nat) :
    Checked.eevdf_stoppingC g p cap = some (Het.eevdf_stopping g p cap) := by
  unfold Checked.eevdf_stoppingC Het.eevdf_stopping
  dsimp only
  rw [svc_vtimeC_eq]
  by_cases hW : g.total_weight = 0
  · simp [hW, div_by_weight_cachedC_eq, Checked.checkedDiv]
  · simp [hW, div_by_weight_cachedC_eq, Checked.checkedDiv]

/-- The checked `set_weight` always succeeds and agrees with the plain
one. -/
theorem eevdf_set_weightC_eq (g : Het.EevdfCtx) (p : Het.TaskState)
    (new_weight : Nat) :
    Checked.eevdf_set_weightC g p new_weight =
      some (Het.eevdf_set_weight g p new_weight) := by
  unfold Checked.eevdf_set_weightC Het.eevdf_set_weight
  dsimp only
  rw [refresh_weight_cacheC_eq]
  simp [div_signed_u64C_eq]
  exact ite_some_push _ _ _

/-- The checked `enable` always succeeds and agrees with the plain one. -/
theorem eevdf_enableC_eq (g : Het.EevdfCtx) (p : Het.TaskState) :
    Checked.eevdf_enableC g p = some (Het.eevdf_enable g p) := by
  unfold Checked.eevdf_enableC Het.eevdf_enable
  dsimp only
  simp [div_signed_u64C_eq]
  repeat' split
  all_goals rfl

/-- The checked `disable` always succeeds and agrees with the plain one. -/
theorem eevdf_disableC_eq (g : Het.EevdfCtx) (p : Het.TaskState) :
    Checked.eevdf_disableC g p = some (Het.eevdf_disable g p) := by
  unfold Checked.eevdf_disableC Het.eevdf_disable
  dsimp only
  simp [div_signed_u64C_eq]
  repeat' split
  all_goals rfl

/-- C10.  No handler can execute a division with a zero divisor: with
every division of the source replaced by one that fails on a zero
divisor, every handler (and the three helper functions the claim names)
still succeeds on every input, returning exactly the plain result —
`div_by_weight_cached` replaces a zero weight by 1, `div_signed_u64`
returns 0 on a zero denominator without dividing, and `stopping` divides
by `total_weight` only under its non-zero guard. -/
theorem claim_C10_no_zero_divisor (g : Het.EevdfCtx) (p : Het.TaskState)
    (pcap cap new_weight val w den : Nat) (num : Int) (t : Het.TaskCtx) :
    Checked.eevdf_enqueueC g p pcap = some (Het.eevdf_enqueue g p pcap) ∧
    Checked.eevdf_stoppingC g p cap = some (Het.eevdf_stopping g p cap) ∧
    Checked.eevdf_set_weightC g p new_weight =
      some (Het.eevdf_set_weight g p new_weight) ∧
    Checked.eevdf_enableC g p = some (Het.eevdf_enable g p) ∧
    Checked.eevdf_disableC g p = some (Het.eevdf_disable g p) ∧
    Checked.div_by_weight_cachedC val w t =
      some (Het.div_by_weight_cached val w t) ∧
    Checked.div_signed_u64C num den = some (Het.div_signed_u64 num den) ∧
    Checked.refresh_weight_cacheC t w = some (Het.refresh_weight_cache t w) :=
  ⟨eevdf_enqueueC_eq g p pcap, eevdf_stoppingC_eq g p cap,
    eevdf_set_weightC_eq g p new_weight, eevdf_enableC_eq g p,
    eevdf_disableC_eq g p, div_by_weight_cachedC_eq val w t,
    div_signed_u64C_eq num den, refresh_weight_cacheC_eq t w⟩

/-- Core error bound of the reciprocal fast division: for weights in
`[1, 2^20]`, `(val·⌊(2^20 + w/2)/w⌋) >> 20` differs from the exact
truncated quotient `val/w` by at most `val/2^21 + 2`. -/
theorem fastdiv_err (w val : Nat) (hw1 : 1 ≤ w) (hw2 : w ≤ 2 ^ 20) :
    val * ((2 ^ 20 + w / 2) / w) / 2 ^ 20 ≤ val / w + (val / 2 ^ 21 + 2) ∧
    val / w ≤ val * ((2 ^ 20 + w / 2) / w) / 2 ^ 20 + (val / 2 ^ 21 + 2) := by
  set I := (2 ^ 20 + w / 2) / w with hIdef
  set q := val / w with hqdef
  set r := val % w with hrdef
  have hvaleq : w * q + r = val := Nat.div_add_mod val w
  have hr : r < w := Nat.mod_lt val (by omega)
  have hI1 : w * I ≤ 2 ^ 20 + w / 2 := by
    rw [hIdef, Nat.mul_comm]
    exact Nat.div_mul_le_self _ _
  have hI2 : 2 ^ 20 + w / 2 < w * I + w := by
    rw [hIdef]
    conv_lhs => rw [← Nat.div_add_mod (2 ^ 20 + w / 2) w]
    exact Nat.add_lt_add_left (Nat.mod_lt _ (by omega)) _
  -- upper bound
  have hP : val * I ≤ q * 2 ^ 20 + q * (w / 2) + (2 ^ 20 + w / 2) := by
    calc val * I = q * (w * I) + r * I := by rw [← hvaleq]; ring
      _ ≤ q * (2 ^ 20 + w / 2) + w * I :=
          Nat.add_le_add (Nat.mul_le_mul (Nat.le_refl q) hI1)
            (Nat.mul_le_mul (Nat.le_of_lt hr) (Nat.le_refl I))
      _ ≤ q * (2 ^ 20 + w / 2) + (2 ^ 20 + w / 2) := Nat.add_le_add_left hI1 _
      _ = q * 2 ^ 20 + q * (w / 2) + (2 ^ 20 + w / 2) := by ring
  have h2A : 2 * (q * (w / 2)) ≤ val := by
    have hh : 2 * (w / 2) ≤ w := by omega
    calc 2 * (q * (w / 2)) = q * (2 * (w / 2)) := by ring
      _ ≤ q * w := Nat.mul_le_mul (Nat.le_refl q) hh
      _ = w * q := Nat.mul_comm _ _
      _ ≤ w * q + r := Nat.le_add_right _ _
      _ = val := hvaleq
  -- lower bound ingredients
  have hX : q * (w * I) ≤ val * I := by
    calc q * (w * I) = w * q * I := by ring
      _ ≤ (w * q + r) * I := Nat.mul_le_mul (Nat.le_add_right _ _) (Nat.le_refl I)
      _ = val * I := by rw [hvaleq]
  have hf2 : q * 2 ^ 20 + q * (w / 2) + q ≤ q * (w * I) + q * w := by
    calc q * 2 ^ 20 + q * (w / 2) + q = q * (2 ^ 20 + w / 2 + 1) := by ring
      _ ≤ q * (w * I + w) := Nat.mul_le_mul (Nat.le_refl q) hI2
      _ = q * (w * I) + q * w := by ring
  have hf3 : q * w ≤ 2 * (q * (w / 2)) + q := by
    have hh : w ≤ 2 * (w / 2) + 1 := by omega
    calc q * w ≤ q * (2 * (w / 2) + 1) := Nat.mul_le_mul (Nat.le_refl q) hh
      _ = 2 * (q * (w / 2)) + q := by ring
  have hf4 : q * w ≤ val := by
    calc q * w = w * q := Nat.mul_comm _ _
      _ ≤ w * q + r := Nat.le_add_right _ _
      _ = val := hvaleq
  -- abstract the nonlinear products and finish by integer arithmetic
  set A := q * (w / 2) with hA
  set B := q * w with hB
  set X := q * (w * I) with hX2
  set P := val * I with hP2
  clear_value A B X P
  constructor
  · omega
  · omega

/-- A fresh weight-cache refresh computes exactly
`w_inv = ⌊(2^20 + w/2)/w⌋` for `w ∈ [1, 2^20]` (the zero-clamp and the
`u32` cast are inert there). -/
theorem refresh_fresh_inv (w : Nat) (hw1 : 1 ≤ w) (hw2 : w ≤ 2 ^ 20) :
    (Het.refresh_weight_cache ⟨0, 0⟩ w).inv_weight =
      (2 ^ 20 + w / 2) / w := by
  unfold Het.refresh_weight_cache Het.INV_SHIFT
  have hw0 : ¬ w = 0 := by omega
  have hq1 : 1 ≤ (2 ^ 20 + w / 2) / w :=
    (Nat.one_le_div_iff (by omega)).mpr (by omega)
  have hqsmall : (2 ^ 20 + w / 2) / w < 2 ^ 32 :=
    lt_of_le_of_lt (Nat.div_le_self _ _) (by omega)
  simp only [hw0, if_false, ite_false]
  have hcond : ¬ ((Het.TaskCtx.mk 0 0).weight_cached = w ∧
      (Het.TaskCtx.mk 0 0).inv_weight ≠ 0) := by
    simp
  rw [if_neg hcond]
  dsimp only
  rw [if_neg (by omega)]
  show (2 ^ 20 + w / 2) / w % 2 ^ 32 = (2 ^ 20 + w / 2) / w
  omega

/-- Counterexample to C4 as stated: at `w = 3`, `val = 2·10^9` the fast
division returns `666666030` while the exact quotient is `666666666`,
an error of 636, far above the claimed bound of 1. -/
theorem claim_C4_counterexample :
    (Het.div_by_weight_cached 2000000000 3 ⟨0, 0⟩).1 = 666666030 ∧
    2000000000 / 3 = 666666666 ∧
    ¬ ((Het.div_by_weight_cached 2000000000 3 ⟨0, 0⟩).1 + 1 ≥ 2000000000 / 3) := by
  refine ⟨?_, ?_, ?_⟩
  all_goals decide

/-- C4 (amended).  For every weight `w ∈ [1, 2^20]` and every
`val ∈ [0, 2^32 − 1]`, with `w_inv = ⌊(2^20 + w/2)/w⌋` (minimum 1) as the
weight cache computes it, the fast division `(val·w_inv) >> 20` — which is
what `div_by_weight_cached` returns on this range — differs from the exact
truncated quotient `val/w` by at most `val/2^21 + 2` (not 1: the 20-bit
reciprocal loses about `val/2^21` units). -/
theorem claim_C4_reciprocal_error_amended (w val : Nat)
    (hw1 : 1 ≤ w) (hw2 : w ≤ 2 ^ 20) (hval : val ≤ 2 ^ 32 - 1) :
    (Het.div_by_weight_cached val w ⟨0, 0⟩).1 =
      val * (Het.refresh_weight_cache ⟨0, 0⟩ w).inv_weight / 2 ^ 20 ∧
    val * (Het.refresh_weight_cache ⟨0, 0⟩ w).inv_weight / 2 ^ 20 ≤
      val / w + (val / 2 ^ 21 + 2) ∧
    val / w ≤
      val * (Het.refresh_weight_cache ⟨0, 0⟩ w).inv_weight / 2 ^ 20 +
        (val / 2 ^ 21 + 2) := by
  have hinv := refresh_fresh_inv w hw1 hw2
  have herr := fastdiv_err w val hw1 hw2
  have hw0 : ¬ w = 0 := by omega
  refine ⟨?_, ?_, ?_⟩
  · unfold Het.div_by_weight_cached Het.INV_SHIFT
    simp only [hw0, if_false, ite_false]
    rw [if_pos ?c]
    case c =>
      constructor
      · rw [hinv]
        have : 1 ≤ (2 ^ 20 + w / 2) / w :=
          (Nat.one_le_div_iff (by omega)).mpr (by omega)
        omega
      · omega
    have hmod : val % 2 ^ 32 = val := by omega
    rw [hmod]
  · rw [hinv]
    exact herr.1
  · rw [hinv]
    exact herr.2

/-- Closed witness for the amended C4 at `w = 3`, `val = 2·10^9`:
the fast quotient `666666030` is within `2000000000/2^21 + 2 = 955` of
the exact `666666666`. -/
theorem claim_C4_reciprocal_error_amended_witness :
    (Het.div_by_weight_cached 2000000000 3 ⟨0, 0⟩).1 =
      2000000000 * (Het.refresh_weight_cache ⟨0, 0⟩ 3).inv_weight / 2 ^ 20 ∧
    2000000000 * (Het.refresh_weight_cache ⟨0, 0⟩ 3).inv_weight / 2 ^ 20 ≤
      2000000000 / 3 + (2000000000 / 2 ^ 21 + 2) ∧
    2000000000 / 3 ≤
      2000000000 * (Het.refresh_weight_cache ⟨0, 0⟩ 3).inv_weight / 2 ^ 20 +
        (2000000000 / 2 ^ 21 + 2) :=
  claim_C4_reciprocal_error_amended 3 2000000000 (by decide) (by decide)
    (by decide)

/-- `u64add` is plain addition when no overflow occurs. -/
theorem u64add_eval {a b : Nat} (h : a + b < U64M) : u64add a b = a + b := by
  unfold u64add U64M at *
  omega

/-- A fresh weight-cache refresh stores the weight and its reciprocal. -/
theorem refresh_fresh (w : Nat) (hw1 : 1 ≤ w) (hw2 : w ≤ 2 ^ 20) :
    Het.refresh_weight_cache ⟨0, 0⟩ w = ⟨w, (2 ^ 20 + w / 2) / w⟩ := by
  unfold Het.refresh_weight_cache Het.INV_SHIFT
  have hw0 : ¬ w = 0 := by omega
  have hq1 : 1 ≤ (2 ^ 20 + w / 2) / w :=
    (Nat.one_le_div_iff (by omega)).mpr (by omega)
  have hqsmall : (2 ^ 20 + w / 2) / w < 2 ^ 32 :=
    lt_of_le_of_lt (Nat.div_le_self _ _) (by omega)
  simp only [hw0, if_false, ite_false]
  have hcond : ¬ ((Het.TaskCtx.mk 0 0).weight_cached = w ∧
      (Het.TaskCtx.mk 0 0).inv_weight ≠ 0) := by
    simp
  rw [if_neg hcond]
  rw [if_neg (by omega : ¬ (2 ^ 20 + w / 2) / w = 0)]
  congr 1
  omega

/-- Refreshing an already coherent cache is the identity. -/
theorem refresh_coherent (w I : Nat) (hw0 : w ≠ 0) (hI : I ≠ 0) :
    Het.refresh_weight_cache ⟨w, I⟩ w = ⟨w, I⟩ := by
  unfold Het.refresh_weight_cache
  simp only [hw0, if_false, ite_false]
  rw [if_pos ⟨trivial, hI⟩]

/-- On a cache-coherent task context, the cached division takes the fast
reciprocal path for 32-bit values. -/
theorem div_by_weight_cached_hit (w val : Nat) (hw1 : 1 ≤ w)
    (hw2 : w ≤ 2 ^ 20) (hval : val ≤ 4294967295) :
    (Het.div_by_weight_cached val w ⟨w, (2 ^ 20 + w / 2) / w⟩).1 =
      val * ((2 ^ 20 + w / 2) / w) / 2 ^ 20 := by
  unfold Het.div_by_weight_cached Het.INV_SHIFT
  have hw0 : ¬ w = 0 := by omega
  have hq1 : 1 ≤ (2 ^ 20 + w / 2) / w :=
    (Nat.one_le_div_iff (by omega)).mpr (by omega)
  simp only [hw0, if_false, ite_false]
  rw [refresh_coherent w _ (by omega) (by omega)]
  rw [if_pos ?c2]
  case c2 =>
    refine ⟨?_, hval⟩
    show ¬ (2 ^ 20 + w / 2) / w = 0
    omega
  show val % 2 ^ 32 * ((2 ^ 20 + w / 2) / w) / 2 ^ 20 = _
  congr 2
  omega

/-- The reciprocal `⌊(2^20 + w/2)/w⌋` never exceeds `2^20`. -/
theorem inv_le_K (w : Nat) (hw1 : 1 ≤ w) :
    (2 ^ 20 + w / 2) / w ≤ 2 ^ 20 := by
  have h1 : 2 ^ 20 + w / 2 ≤ 2 ^ 20 * w := by omega
  calc (2 ^ 20 + w / 2) / w ≤ 2 ^ 20 * w / w := Nat.div_le_div_right h1
    _ = 2 ^ 20 := Nat.mul_div_cancel _ (by omega)

/-- On homogeneous capacities and a common in-range state, the
heterogeneous and classical `enqueue` compute `v_d` keys within 955
(`= 2·10^9/2^21 + 2`, the fast-division error bound at
`val = Q_max·SCALE`) of each other. -/
theorem het_cls_vd_close (gH : Het.EevdfCtx) (gC : Classic.EevdfCtx)
    (p : Het.TaskState) (q : Classic.TaskState) (pcap : Nat)
    (hVeq : gH.vtime_now = gC.vtime_now)
    (hcap : gH.max_capacity = CAPACITY_SCALE)
    (hV1 : SCX_SLICE_DFL ≤ gC.vtime_now) (hV2 : gC.vtime_now < S64H)
    (hweq : p.weight = q.weight) (hveeq : p.dsq_vtime = q.dsq_vtime)
    (hw1 : 1 ≤ q.weight) (hw2 : q.weight ≤ 2 ^ 20) (hve : q.dsq_vtime < S64H)
    (htctx : p.tctx = ⟨0, 0⟩) :
    (Het.eevdf_enqueue gH p pcap).vd ≤ (Classic.eevdf_enqueue gC q).2 + 955 ∧
    (Classic.eevdf_enqueue gC q).2 ≤ (Het.eevdf_enqueue gH p pcap).vd + 955 := by
  set C := gC.vtime_now with hCdef
  set qm := Het.q_max_of gH with hqmdef
  have hqm20 : qm = 20000000 := by
    rw [hqmdef]
    unfold Het.q_max_of
    rw [hcap]
    decide
  set V := gH.vtime_now with hVdef
  set minv : Nat := if V > qm then V - qm else 0 with hminvdef
  set wcl : Nat := if p.weight = 0 then 1 else p.weight with hwcldef
  have hvd : (Het.eevdf_enqueue gH p pcap).vd =
      u64add (if time_before p.dsq_vtime minv then minv else p.dsq_vtime)
        (Het.div_by_weight_cached (qm * SCALE) wcl
          (Het.refresh_weight_cache p.tctx wcl)).1 := rfl
  have hwclw : wcl = q.weight := by
    rw [hwcldef, hweq]
    exact if_neg (by omega)
  have htcv : Het.refresh_weight_cache p.tctx wcl =
      ⟨q.weight, (2 ^ 20 + q.weight / 2) / q.weight⟩ := by
    rw [htctx, hwclw]
    exact refresh_fresh q.weight hw1 hw2
  have hdv : (Het.div_by_weight_cached (qm * SCALE) wcl
      (Het.refresh_weight_cache p.tctx wcl)).1 =
      2000000000 * ((2 ^ 20 + q.weight / 2) / q.weight) / 2 ^ 20 := by
    rw [htcv, hwclw, hqm20]
    show (Het.div_by_weight_cached 2000000000 q.weight _).1 = _
    exact div_by_weight_cached_hit q.weight 2000000000 hw1 hw2 (by norm_num)
  have hclsvd : (Classic.eevdf_enqueue gC q).2 =
      u64add (if q.dsq_vtime < u64sub C SCX_SLICE_DFL
              then u64sub C SCX_SLICE_DFL else q.dsq_vtime)
        (SCX_SLICE_DFL * SCALE / (if q.weight = 0 then 1 else q.weight)) := rfl
  have hsub : u64sub C SCX_SLICE_DFL = C - 20000000 := by
    rw [u64sub_eval (by unfold U64M S64H at *; omega) (by unfold U64M SCX_SLICE_DFL; norm_num)]
    rw [if_pos hV1]
    rfl
  have hwcls : (if q.weight = 0 then 1 else q.weight) = q.weight :=
    if_neg (by omega)
  have hclamp : (if time_before p.dsq_vtime minv then minv else p.dsq_vtime) =
      (if q.dsq_vtime < C - 20000000 then C - 20000000 else q.dsq_vtime) := by
    rw [hveeq, hminvdef, hqm20, hVeq]
    by_cases hgt : C > 20000000
    · rw [if_pos hgt]
      have hm : C - 20000000 < S64H := by omega
      rw [time_before_eq hve hm]
      simp only [decide_eq_true_eq]
    · rw [if_neg hgt]
      have hceq : C - 20000000 = 0 := by
        unfold SCX_SLICE_DFL at hV1
        omega
      rw [hceq]
      have htb : time_before q.dsq_vtime 0 = false := by
        rw [time_before_eq hve (by unfold S64H; omega)]
        simp
      rw [htb]
      simp
  have hIle : (2 ^ 20 + q.weight / 2) / q.weight ≤ 2 ^ 20 :=
    inv_le_K q.weight hw1
  have hfastle : 2000000000 * ((2 ^ 20 + q.weight / 2) / q.weight) / 2 ^ 20 ≤
      2000000000 := by
    calc 2000000000 * ((2 ^ 20 + q.weight / 2) / q.weight) / 2 ^ 20 ≤
        2000000000 * 2 ^ 20 / 2 ^ 20 :=
          Nat.div_le_div_right (Nat.mul_le_mul (Nat.le_refl _) hIle)
      _ = 2000000000 := by norm_num
  have hclsle : 2000000000 / q.weight ≤ 2000000000 := Nat.div_le_self _ _
  have hve' : (if q.dsq_vtime < C - 20000000 then C - 20000000
      else q.dsq_vtime) < S64H := by
    split
    all_goals omega
  have herr := fastdiv_err q.weight 2000000000 hw1 hw2
  have h21 : (2000000000 : Nat) / 2 ^ 21 = 953 := by norm_num
  rw [h21] at herr
  rw [hvd, hdv, hclamp, hclsvd, hsub, hwcls]
  have hdcls : SCX_SLICE_DFL * SCALE / q.weight = 2000000000 / q.weight := rfl
  rw [hdcls]
  rw [u64add_eval (by unfold U64M S64H at *; omega),
    u64add_eval (by unfold U64M S64H at *; omega)]
  unfold S64H at *
  omega

/-- Counterexample to C5 as stated: from the identical initial global
state `V = 0` (homogeneous capacities) and task states
`(w = 1, v_e = 1000)` and `(w = 1, v_e = 5000)`, the heterogeneous
`enqueue` orders the keys strictly (`<`) while the classical one computes
equal keys (its unguarded `v_now - slice` clamp wraps at `V < slice` and
flattens both tasks to the same `v_e`), so the orderings differ. -/
theorem claim_C5_counterexample :
    (Het.eevdf_enqueue ⟨0, 0, 1024⟩ ⟨1, 0, 1000, ⟨0, 0⟩⟩ 1024).vd <
      (Het.eevdf_enqueue ⟨0, 0, 1024⟩ ⟨1, 0, 5000, ⟨0, 0⟩⟩ 1024).vd ∧
    (Classic.eevdf_enqueue ⟨0, 0⟩ ⟨1, 0, 1000⟩).2 =
      (Classic.eevdf_enqueue ⟨0, 0⟩ ⟨1, 0, 5000⟩).2 := by
  refine ⟨?_, ?_⟩
  all_goals decide

/-- C5 (amended).  When all capacities equal `CAP_SCALE`, the
heterogeneous scheduler's `enqueue` produces the same `v_d` ordering as
the classical EEVDF implementation on the same events *up to the
fast-division granularity*: for two tasks enqueued from identical
(in-range, `V ≥ SLICE`) global state and identical task states with
weights in `[1, 2^20]` and fresh weight caches, whenever the classical
keys are separated by more than `2·(Q_max·SCALE/2^21 + 2) = 1910` units
the heterogeneous keys compare the same way. -/
theorem claim_C5_homogeneous_reduction_amended
    (gH : Het.EevdfCtx) (gC : Classic.EevdfCtx)
    (pA pB : Het.TaskState) (qA qB : Classic.TaskState) (pcapA pcapB : Nat)
    (hVeq : gH.vtime_now = gC.vtime_now)
    (hcap : gH.max_capacity = CAPACITY_SCALE)
    (hV1 : SCX_SLICE_DFL ≤ gC.vtime_now) (hV2 : gC.vtime_now < S64H)
    (hAw : pA.weight = qA.weight) (hAve : pA.dsq_vtime = qA.dsq_vtime)
    (hAw1 : 1 ≤ qA.weight) (hAw2 : qA.weight ≤ 2 ^ 20)
    (hAve2 : qA.dsq_vtime < S64H) (hAt : pA.tctx = ⟨0, 0⟩)
    (hBw : pB.weight = qB.weight) (hBve : pB.dsq_vtime = qB.dsq_vtime)
    (hBw1 : 1 ≤ qB.weight) (hBw2 : qB.weight ≤ 2 ^ 20)
    (hBve2 : qB.dsq_vtime < S64H) (hBt : pB.tctx = ⟨0, 0⟩)
    (hsep : (Classic.eevdf_enqueue gC qA).2 + 1911 ≤
      (Classic.eevdf_enqueue gC qB).2) :
    (Het.eevdf_enqueue gH pA pcapA).vd < (Het.eevdf_enqueue gH pB pcapB).vd := by
  have hA := het_cls_vd_close gH gC pA qA pcapA hVeq hcap hV1 hV2 hAw hAve
    hAw1 hAw2 hAve2 hAt
  have hB := het_cls_vd_close gH gC pB qB pcapB hVeq hcap hV1 hV2 hBw hBve
    hBw1 hBw2 hBve2 hBt
  omega

/-- Closed witness for the amended C5: at `V = 10^8` with weights 3 and 1
the classical keys are separated by far more than 1911, and the
heterogeneous keys compare the same way. -/
theorem claim_C5_homogeneous_reduction_amended_witness :
    (Het.eevdf_enqueue ⟨100000000, 1, 1024⟩ ⟨3, 0, 100000000, ⟨0, 0⟩⟩ 1024).vd <
      (Het.eevdf_enqueue ⟨100000000, 1, 1024⟩ ⟨1, 0, 100000000, ⟨0, 0⟩⟩ 1024).vd :=
  claim_C5_homogeneous_reduction_amended ⟨100000000, 1, 1024⟩ ⟨100000000, 1⟩
    ⟨3, 0, 100000000, ⟨0, 0⟩⟩ ⟨1, 0, 100000000, ⟨0, 0⟩⟩
    ⟨3, 0, 100000000⟩ ⟨1, 0, 100000000⟩ 1024 1024
    rfl rfl (by decide) (by decide) rfl rfl (by decide) (by decide)
    (by decide) rfl rfl rfl (by decide) (by decide) (by decide) rfl
    (by decide)
